import Mathlib

/-!
Shallow embedding of the RandomParty stateful precompile
(src/precompile/random_party.go, second revision — the one defining
sponsor/reward and the commit-fee machinery) together with the storage
codec it is built on, and proofs settling the frozen claims about it.

Machine conventions of the embedding:
* a byte string is a `List Nat` whose entries are < 256 by construction;
* a 32-byte storage word (`common.Hash`) is a byte string of length 32;
* an address (`common.Address`) is a byte string of length 20;
* unsigned big integers (`math/big.Int` values that are always
  non-negative in this code) are `Nat`;
* the keccak-256 function is kept abstract: every theorem that touches it
  quantifies over an arbitrary function of type `List Nat → List Nat`,
  so the theorems hold in particular for the real keccak-256.
-/

namespace RandomParty

abbrev Bytes := List Nat

/-- The all-zero 32-byte word, the value of every unset storage slot
(`common.Hash{}`). -/
def zero32 : Bytes := List.replicate 32 0

/-- Minimal big-endian byte encoding, with an explicit recursion bound on the
number of produced bytes.  Mirrors `math/big.Int.Bytes()` for non-negative
values: zero encodes to the empty string, otherwise no leading zero byte. -/
def beBytesAux : Nat → Nat → Bytes
  | 0, _ => []
  | k + 1, n => if n = 0 then [] else beBytesAux k (n / 256) ++ [n % 256]

/-- Minimal big-endian encoding of a `big.Int` value (`Int.Bytes`).  The
bound of 40 bytes covers every value below 256^40; every integer the
precompile ever encodes is read back from a 32-byte storage word or a
32-byte ABI argument and is therefore below 256^32. -/
def beBytes (n : Nat) : Bytes := beBytesAux 40 n

/-- Big-endian value of a byte string (`big.Int.SetBytes`). -/
def beVal (b : Bytes) : Nat := b.foldl (fun acc x => acc * 256 + x) 0

/-- Conversion of a byte string into a 32-byte word, `common.BytesToHash`:
if the input is longer than 32 bytes it is cropped from the left (only the
trailing 32 bytes survive), and the result is left-padded with zero bytes
to length 32 (the input becomes the trailing bytes of the word). -/
def bytesToHash (b : Bytes) : Bytes :=
  let c := if 32 ≤ b.length then b.drop (b.length - 32) else b
  List.replicate (32 - c.length) 0 ++ c

/-- Conversion of a non-negative `big.Int` into a 32-byte word,
`common.BigToHash`. -/
def bigToHash (n : Nat) : Bytes := bytesToHash (beBytes n)

/-- The part of the host `StateDB` the precompile uses.  The word store is
restricted to the precompile address (every `SetState`/`GetState` in the
source uses `RandomPartyAddress`), so it is keyed by the 32-byte key alone.
Balances and account existence are per-address. -/
structure EvmState where
  storage : Bytes → Bytes
  balances : Bytes → Nat
  existsAcct : Bytes → Bool

/-- StateDB.SetState at the precompile address. -/
def setState (s : EvmState) (key val : Bytes) : EvmState :=
  { s with storage := fun k => if k = key then val else s.storage k }

/-- StateDB.GetState at the precompile address. -/
def getState (s : EvmState) (key : Bytes) : Bytes := s.storage key

/-- StateDB.AddBalance. -/
def addBalance (s : EvmState) (addr : Bytes) (amt : Nat) : EvmState :=
  { s with balances := fun a => if a = addr then s.balances a + amt else s.balances a }

/-- StateDB.CreateAccount (invoked only on absent accounts here). -/
def createAccount (s : EvmState) (addr : Bytes) : EvmState :=
  { s with existsAcct := fun a => if a = addr then true else s.existsAcct a }

/-! Storage key bytes, from the source.  The names end in Pfx rather than
the source's longer suffix purely for lexical reasons; each definition
notes the source identifier. -/

/-- Key byte of commitDeadline (source: commitDeadlineKey). -/
def commitDeadlineKey : Bytes := [0x1]

/-- Key byte of revealDeadline (source: revealDeadlineKey). -/
def revealDeadlineKey : Bytes := [0x2]

/-- Key byte of the commit table and its counter (source identifier ends
in the delimiter word; value 0x3). -/
def commitPfx : Bytes := [0x3]

/-- Key byte of the reveal table and its counter (source value 0x4). -/
def revealPfx : Bytes := [0x4]

/-- Key byte of the result table and its counter (source value 0x5). -/
def resultPfx : Bytes := [0x5]

/-- Key byte of phaseDuration (source: phaseDurationKey). -/
def phaseDurationKey : Bytes := [0x6]

/-- Key byte of commitFee (source: commitFeeKey). -/
def commitFeeKey : Bytes := [0x7]

/-- Key byte of the commitOwner table (source value 0x8). -/
def commitOwnerPfx : Bytes := [0x8]

/-- Key byte of the reward pool slot and the rewardRecip table (source
value 0x9). -/
def rewardPfx : Bytes := [0x9]

/-- The ASCII slash delimiter byte (source: delim = byte 0x2F). -/
def delim : Nat := 0x2f

/-- setRandomPartyBig: store a big integer under a short key. -/
def setRandomPartyBig (s : EvmState) (key : Bytes) (val : Nat) : EvmState :=
  setState s (bytesToHash key) (bigToHash val)

/-- getRandomPartyBig: load a big integer from a short key. -/
def getRandomPartyBig (s : EvmState) (key : Bytes) : Nat :=
  beVal (getState s (bytesToHash key))

/-- The 32-byte storage key of entry v of an indexed table: the raw bytes
are the one-byte table byte, the delimiter, then the minimal big-endian
index, and the raw bytes are passed through bytesToHash. -/
def counterKey (pfx : Bytes) (v : Nat) : Bytes :=
  bytesToHash (pfx ++ delim :: beBytes v)

/-- addCounterHash: read the counter stored at the bare table byte, bump
it, and store the hash at the key of the old counter value; returns the
old counter value (the index used). -/
def addCounterHash (s : EvmState) (pfx : Bytes) (hash : Bytes) : Nat × EvmState :=
  let currV := getRandomPartyBig s pfx
  let s1 := setRandomPartyBig s pfx (currV + 1)
  (currV, setState s1 (counterKey pfx currV) hash)

/-- getCounterHash. -/
def getCounterHash (s : EvmState) (pfx : Bytes) (v : Nat) : Bytes :=
  getState s (counterKey pfx v)

/-- deleteCounterHash: overwrite with the all-zero word. -/
def deleteCounterHash (s : EvmState) (pfx : Bytes) (v : Nat) : EvmState :=
  setState s (counterKey pfx v) zero32

/-- addResultHash: append to the result table (same shape as
addCounterHash with the result table byte, no index returned). -/
def addResultHash (s : EvmState) (value : Bytes) : EvmState :=
  let currV := getRandomPartyBig s resultPfx
  let s1 := setRandomPartyBig s resultPfx (currV + 1)
  setState s1 (counterKey resultPfx currV) value

/-- getResultHash. -/
def getResultHash (s : EvmState) (round : Nat) : Bytes :=
  getState s (counterKey resultPfx round)

/-- setRandomPartyFundRecipient: a 20-byte address stored as a left-padded
32-byte word (`addr.Hash()`). -/
def setFundRecipient (s : EvmState) (pfx : Bytes) (idx : Nat) (addr : Bytes) : EvmState :=
  setState s (counterKey pfx idx) (bytesToHash addr)

/-- getRandomPartyFundRecipient: `common.BytesToAddress(h.Bytes())` keeps
the trailing 20 bytes of the 32-byte word. -/
def getFundRecipient (s : EvmState) (pfx : Bytes) (idx : Nat) : Bytes :=
  (getState s (counterKey pfx idx)).drop 12

/-- deleteRandomPartyFundRecipient. -/
def deleteFundRecipient (s : EvmState) (pfx : Bytes) (idx : Nat) : EvmState :=
  setState s (counterKey pfx idx) zero32

/-! Gas cost constants.  The first six are the literals of
src/precompile/params.go. -/

def StartGasCost : Nat := 50000

def DeleteGasCost : Nat := 1000

def CommitGasCost : Nat := 10000

def RevealGasCost : Nat := 10000

def ComputeGasCost : Nat := 100000

def ComputeItemCost : Nat := 1000

/-- Modelled from the spec: SponsorGasCost is referenced by the sponsor
operation but its numeric value is missing from src (the spec lists it as
implied by the API without a value).  No claim proved here depends on the
chosen value. -/
def SponsorGasCost : Nat := 1000

/-- Modelled from the spec: RewardGasCost, value missing from src; no
claim depends on it. -/
def RewardGasCost : Nat := 1000

/-- Modelled from the spec: ComputeRewardCost, value missing from src; no
claim depends on it. -/
def ComputeRewardCost : Nat := 1000

/-- Modelled from the spec: ResultCost, value missing from src; no claim
depends on it. -/
def ResultCost : Nat := 1000

/-- Modelled from the spec: NextCost, value missing from src; no claim
depends on it. -/
def NextCost : Nat := 1000

/-- The error taxonomy of the precompile (each constructor corresponds to
one error value or formatted error of the source). -/
inductive RPError where
  | outOfGas : RPError
  | invalidInputLength : Nat → RPError
  | randomPartyUnderway : RPError
  | noRandomPartyStarted : RPError
  | tooEarly : RPError
  | tooLate : RPError
  | duplicateReveal : RPError
  | insufficientFunds : RPError
  | writeProtection : RPError
  | noHashWithIndex : Nat → RPError
  | hashMismatch : Bytes → Bytes → RPError
deriving DecidableEq

/-- Result of one precompile operation: the returned bytes or error, the
remaining gas, and the state as left by the operation body (the host's
revert-on-error discipline is outside the embedded code). -/
structure RPResult where
  out : Except RPError Bytes
  gas : Nat
  state : EvmState

/-- deductGas: out of gas exactly when the cost exceeds the supply. -/
def deductGas (g cost : Nat) : Option Nat :=
  if g < cost then none else some (g - cost)

/-- The sweep loop of startRandomParty: for each index of the table, deduct
DeleteGasCost (on failure return gas zero with the state mutated so far)
and zero both the table entry and the matching fund-recipient entry.
First argument is the number of remaining iterations, second the current
index. -/
def sweepRound (pfx rpfx : Bytes) : Nat → Nat → Nat → EvmState → Except EvmState (Nat × EvmState)
  | 0, _, g, s => .ok (g, s)
  | k + 1, i, g, s =>
    match deductGas g DeleteGasCost with
    | none => .error s
    | some g1 =>
      let s1 := deleteCounterHash s pfx i
      let s2 := deleteFundRecipient s1 rpfx i
      sweepRound pfx rpfx k (i + 1) g1 s2

/-- startRandomParty. -/
def startRandomParty (t : Nat) (input : Bytes) (gas : Nat) (readOnly : Bool)
    (s : EvmState) : RPResult :=
  match deductGas gas StartGasCost with
  | none => ⟨.error .outOfGas, 0, s⟩
  | some g1 =>
    if input.length ≠ 0 then ⟨.error (.invalidInputLength input.length), g1, s⟩
    else if getRandomPartyBig s commitDeadlineKey ≠ 0 then ⟨.error .randomPartyUnderway, g1, s⟩
    else if readOnly then ⟨.error .writeProtection, g1, s⟩
    else
      match sweepRound commitPfx commitOwnerPfx (getRandomPartyBig s commitPfx) 0 g1 s with
      | .error sBad => ⟨.error .outOfGas, 0, sBad⟩
      | .ok (g2, s2) =>
        let s3 := setRandomPartyBig s2 commitPfx 0
        match sweepRound revealPfx rewardPfx (getRandomPartyBig s3 revealPfx) 0 g2 s3 with
        | .error sBad => ⟨.error .outOfGas, 0, sBad⟩
        | .ok (g3, s4) =>
          let s5 := setRandomPartyBig s4 revealPfx 0
          let pd := getRandomPartyBig s5 phaseDurationKey
          let cd := t + pd
          let s6 := setRandomPartyBig s5 commitDeadlineKey cd
          let s7 := setRandomPartyBig s6 revealDeadlineKey (cd + pd)
          ⟨.ok [], g3, s7⟩

/-- sponsorRandomParty. -/
def sponsorRandomParty (t : Nat) (input : Bytes) (gas value : Nat) (readOnly : Bool)
    (s : EvmState) : RPResult :=
  match deductGas gas SponsorGasCost with
  | none => ⟨.error .outOfGas, 0, s⟩
  | some g1 =>
    if input.length ≠ 0 then ⟨.error (.invalidInputLength input.length), g1, s⟩
    else if getRandomPartyBig s commitDeadlineKey = 0 then ⟨.error .noRandomPartyStarted, g1, s⟩
    else if getRandomPartyBig s commitDeadlineKey ≤ t then ⟨.error .tooLate, g1, s⟩
    else
      let rewardAmount := getRandomPartyBig s rewardPfx
      if readOnly then ⟨.error .writeProtection, g1, s⟩
      else ⟨.ok [], g1, setRandomPartyBig s rewardPfx (rewardAmount + value)⟩

/-- rewardRandomParty. -/
def rewardRandomParty (t : Nat) (input : Bytes) (gas : Nat) (s : EvmState) : RPResult :=
  match deductGas gas RewardGasCost with
  | none => ⟨.error .outOfGas, 0, s⟩
  | some g1 =>
    if input.length ≠ 0 then ⟨.error (.invalidInputLength input.length), g1, s⟩
    else if getRandomPartyBig s commitDeadlineKey = 0 then ⟨.error .noRandomPartyStarted, g1, s⟩
    else ⟨.ok (bigToHash (getRandomPartyBig s rewardPfx)), g1, s⟩

/-- commitRandomParty. -/
def commitRandomParty (t : Nat) (caller input : Bytes) (gas value : Nat) (readOnly : Bool)
    (s : EvmState) : RPResult :=
  match deductGas gas CommitGasCost with
  | none => ⟨.error .outOfGas, 0, s⟩
  | some g1 =>
    if getRandomPartyBig s commitDeadlineKey = 0 then ⟨.error .noRandomPartyStarted, g1, s⟩
    else if getRandomPartyBig s commitDeadlineKey ≤ t then ⟨.error .tooLate, g1, s⟩
    else if input.length ≠ 32 then ⟨.error (.invalidInputLength input.length), g1, s⟩
    else
      let h := bytesToHash input
      if value < getRandomPartyBig s commitFeeKey then ⟨.error .insufficientFunds, g1, s⟩
      else if readOnly then ⟨.error .writeProtection, g1, s⟩
      else
        let p := addCounterHash s commitPfx h
        ⟨.ok (bigToHash p.1), g1, setFundRecipient p.2 commitOwnerPfx p.1 caller⟩

/-- revealRandomParty.  keccak is the abstract keccak-256; the preimage is
hashed exactly as in the source (the 32 bytes of the parsed hash value). -/
def revealRandomParty (keccak : Bytes → Bytes) (t : Nat) (caller input : Bytes)
    (gas : Nat) (readOnly : Bool) (s : EvmState) : RPResult :=
  match deductGas gas RevealGasCost with
  | none => ⟨.error .outOfGas, 0, s⟩
  | some g1 =>
    if getRandomPartyBig s commitDeadlineKey = 0 ∨ getRandomPartyBig s revealDeadlineKey = 0 then
      ⟨.error .noRandomPartyStarted, g1, s⟩
    else if t < getRandomPartyBig s commitDeadlineKey then ⟨.error .tooEarly, g1, s⟩
    else if getRandomPartyBig s revealDeadlineKey ≤ t then ⟨.error .tooLate, g1, s⟩
    else if input.length ≠ 64 then ⟨.error (.invalidInputLength input.length), g1, s⟩
    else
      let idx := beVal (input.take 32)
      let preimage := bytesToHash (input.drop 32)
      if getRandomPartyBig s commitPfx ≤ idx then ⟨.error (.noHashWithIndex idx), g1, s⟩
      else
        let h := getCounterHash s commitPfx idx
        if beVal h = 0 then ⟨.error .duplicateReveal, g1, s⟩
        else if h ≠ keccak preimage then ⟨.error (.hashMismatch h (keccak preimage)), g1, s⟩
        else
          let feeRecipient := getFundRecipient s commitOwnerPfx idx
          if readOnly then ⟨.error .writeProtection, g1, s⟩
          else
            let sA := if s.existsAcct feeRecipient then s else createAccount s feeRecipient
            let sB := addBalance sA feeRecipient (getRandomPartyBig sA commitFeeKey)
            let sC := deleteCounterHash sB commitPfx idx
            let sD := deleteFundRecipient sC commitOwnerPfx idx
            let p := addCounterHash sD revealPfx preimage
            ⟨.ok [], g1, setFundRecipient p.2 rewardPfx p.1 feeRecipient⟩

/-- Overwrite of a byte string at an offset, the semantics of Go's
copy(buf[off : off+len(src)], src): min(len(src), len(buf)-off) bytes of
src land at position off. -/
def copyAt (buf src : Bytes) (off : Nat) : Bytes :=
  buf.take off ++ src.take (min src.length (buf.length - off)) ++
    buf.drop (off + min src.length (buf.length - off))

/-- The per-reveal loop of computeRandomParty: deduct ComputeItemCost, copy
the i-th revealed preimage into the buffer at byte offset i (the source's
preimages[i : i+32] destination), and when rewarding also deduct
ComputeRewardCost and credit eachReward to the i-th reward recipient
(creating the account when absent).  First argument is the number of
remaining iterations, second the current index. -/
def computeLoop (eachReward : Nat) (shouldReward : Bool) :
    Nat → Nat → Nat → Bytes → EvmState → Except EvmState (Nat × Bytes × EvmState)
  | 0, _, g, buf, s => .ok (g, buf, s)
  | k + 1, i, g, buf, s =>
    match deductGas g ComputeItemCost with
    | none => .error s
    | some g1 =>
      let buf1 := copyAt buf (getCounterHash s revealPfx i) i
      if shouldReward then
        match deductGas g1 ComputeRewardCost with
        | none => .error s
        | some g2 =>
          let r := getFundRecipient s rewardPfx i
          let sA := if s.existsAcct r then s else createAccount s r
          computeLoop eachReward shouldReward k (i + 1) g2 buf1 (addBalance sA r eachReward)
      else computeLoop eachReward shouldReward k (i + 1) g1 buf1 s

/-- computeRandomParty.  The returned value is none exactly when the body
panics: the source divides the reward pool by the reveal counter with
big.Int.Div, which panics on a zero divisor, before any zero test. -/
def computeRandomParty (keccak : Bytes → Bytes) (t : Nat) (input : Bytes)
    (gas : Nat) (readOnly : Bool) (s : EvmState) : Option RPResult :=
  match deductGas gas ComputeGasCost with
  | none => some ⟨.error .outOfGas, 0, s⟩
  | some g1 =>
    if getRandomPartyBig s revealDeadlineKey = 0 then some ⟨.error .noRandomPartyStarted, g1, s⟩
    else if t < getRandomPartyBig s revealDeadlineKey then some ⟨.error .tooEarly, g1, s⟩
    else if input.length ≠ 0 then some ⟨.error (.invalidInputLength input.length), g1, s⟩
    else
      let reveals := getRandomPartyBig s revealPfx
      let rewardAmount := getRandomPartyBig s rewardPfx
      if reveals = 0 then none
      else
        let eachReward := rewardAmount / reveals
        match computeLoop eachReward (decide (0 < eachReward)) reveals 0 g1
            (List.replicate (32 * reveals) 0) s with
        | .error sBad => some ⟨.error .outOfGas, 0, sBad⟩
        | .ok (g2, buf, s2) =>
          if readOnly then some ⟨.error .writeProtection, g2, s2⟩
          else
            let s3 := setRandomPartyBig s2 commitDeadlineKey 0
            let s4 := setRandomPartyBig s3 revealDeadlineKey 0
            some ⟨.ok [], g2, addResultHash s4 (keccak buf)⟩

/-- resultRandomParty. -/
def resultRandomParty (input : Bytes) (gas : Nat) (s : EvmState) : RPResult :=
  match deductGas gas ResultCost with
  | none => ⟨.error .outOfGas, 0, s⟩
  | some g1 =>
    if input.length ≠ 32 then ⟨.error (.invalidInputLength input.length), g1, s⟩
    else ⟨.ok (getResultHash s (beVal input)), g1, s⟩

/-- nextRandomParty. -/
def nextRandomParty (input : Bytes) (gas : Nat) (s : EvmState) : RPResult :=
  match deductGas gas NextCost with
  | none => ⟨.error .outOfGas, 0, s⟩
  | some g1 =>
    if input.length ≠ 0 then ⟨.error (.invalidInputLength input.length), g1, s⟩
    else ⟨.ok (bigToHash (getRandomPartyBig s resultPfx)), g1, s⟩

/-- The eight dispatchable operations of the precompile. -/
inductive RPOp where
  | start | sponsor | reward | commit | reveal | compute | result | next
deriving DecidableEq

/-- The ambient parameters of one call. -/
structure CallArgs where
  op : RPOp
  t : Nat
  caller : Bytes
  input : Bytes
  gas : Nat
  value : Nat
  readOnly : Bool

/-- Dispatch of one call to its operation; none is the compute panic. -/
def runOp (keccak : Bytes → Bytes) (a : CallArgs) (s : EvmState) : Option RPResult :=
  match a.op with
  | .start => some (startRandomParty a.t a.input a.gas a.readOnly s)
  | .sponsor => some (sponsorRandomParty a.t a.input a.gas a.value a.readOnly s)
  | .reward => some (rewardRandomParty a.t a.input a.gas s)
  | .commit => some (commitRandomParty a.t a.caller a.input a.gas a.value a.readOnly s)
  | .reveal => some (revealRandomParty keccak a.t a.caller a.input a.gas a.readOnly s)
  | .compute => computeRandomParty keccak a.t a.input a.gas a.readOnly s
  | .result => some (resultRandomParty a.input a.gas s)
  | .next => some (nextRandomParty a.input a.gas s)

/-- State after one call.  A panic (compute with a zero reveal counter)
crashes the node before a state transition is recorded, so it is modelled
as leaving the state unchanged. -/
def stepState (keccak : Bytes → Bytes) (a : CallArgs) (s : EvmState) : EvmState :=
  match runOp keccak a s with
  | none => s
  | some r => r.state

/-- State after a sequence of calls. -/
def runChain (keccak : Bytes → Bytes) : List CallArgs → EvmState → EvmState
  | [], s => s
  | a :: rest, s => runChain keccak rest (stepState keccak a s)

/-! ## Toolkit: byte-encoding lemmas -/

theorem beBytesAux_length_le {j : Nat} :
    ∀ (k n : Nat), n < 256 ^ j → (beBytesAux k n).length ≤ j := by
  intro k
  induction k generalizing j with
  | zero => intro n _; simp [beBytesAux]
  | succ k ih =>
    intro n hn
    unfold beBytesAux
    by_cases h0 : n = 0
    · simp [h0]
    · rw [if_neg h0]
      match j, hn with
      | 0, hn => omega
      | j + 1, hn =>
        have hdiv : n / 256 < 256 ^ j := by
          apply Nat.div_lt_of_lt_mul
          calc n < 256 ^ (j + 1) := hn
            _ = 256 * 256 ^ j := by ring
        have := ih (n / 256) hdiv
        simp only [List.length_append, List.length_singleton]
        omega

theorem beBytes_length_le {j n : Nat} (hj : j ≤ 40) (hn : n < 256 ^ j) :
    (beBytes n).length ≤ j :=
  beBytesAux_length_le 40 n hn

theorem beVal_append_singleton (l : Bytes) (x : Nat) :
    beVal (l ++ [x]) = beVal l * 256 + x := by
  simp [beVal, List.foldl_append]

theorem beVal_beBytesAux : ∀ (k n : Nat), n < 256 ^ k → beVal (beBytesAux k n) = n := by
  intro k
  induction k with
  | zero =>
    intro n hn
    have hn0 : n = 0 := by simpa using hn
    subst hn0
    rfl
  | succ k ih =>
    intro n hn
    unfold beBytesAux
    by_cases h0 : n = 0
    · simp [h0, beVal]
    · rw [if_neg h0, beVal_append_singleton]
      have hdiv : n / 256 < 256 ^ k := by
        apply Nat.div_lt_of_lt_mul
        calc n < 256 ^ (k + 1) := hn
          _ = 256 * 256 ^ k := by ring
      rw [ih (n / 256) hdiv]
      omega

theorem beVal_beBytes {n : Nat} (hn : n < 256 ^ 40) : beVal (beBytes n) = n :=
  beVal_beBytesAux 40 n hn

theorem beBytes_injOn {m n : Nat} (hm : m < 256 ^ 40) (hn : n < 256 ^ 40)
    (h : beBytes m = beBytes n) : m = n := by
  have := beVal_beBytes hm
  rw [h, beVal_beBytes hn] at this
  omega

theorem beVal_replicate_zero_append (p : Nat) (l : Bytes) :
    beVal (List.replicate p 0 ++ l) = beVal l := by
  have hz : ∀ q : Nat, List.foldl (fun acc x => acc * 256 + x) 0 (List.replicate q 0) = 0 := by
    intro q
    induction q with
    | zero => rfl
    | succ q ih => simpa [List.replicate_succ] using ih
  simp [beVal, List.foldl_append, hz]

theorem bytesToHash_eq_pad {b : Bytes} (h : b.length ≤ 32) :
    bytesToHash b = List.replicate (32 - b.length) 0 ++ b := by
  unfold bytesToHash
  by_cases h32 : 32 ≤ b.length
  · have : b.length = 32 := le_antisymm h h32
    simp [h32, this]
  · simp [h32]

theorem length_bytesToHash (b : Bytes) : (bytesToHash b).length = 32 := by
  unfold bytesToHash
  by_cases h32 : 32 ≤ b.length
  · simp only [if_pos h32, List.length_append, List.length_replicate, List.length_drop]
    omega
  · simp only [if_neg h32, List.length_append, List.length_replicate]
    omega

theorem beVal_bigToHash {n : Nat} (hn : n < 256 ^ 32) : beVal (bigToHash n) = n := by
  have hlen : (beBytes n).length ≤ 32 := beBytes_length_le (by omega) hn
  rw [bigToHash, bytesToHash_eq_pad hlen, beVal_replicate_zero_append,
    beVal_beBytes (lt_of_lt_of_le hn (Nat.pow_le_pow_right (by omega) (by omega)))]

/-- Two zero-padded byte strings with non-zero leading bytes and equal total
length agree exactly when the unpadded strings agree. -/
theorem replicate_zero_append_cons_inj {x y : Nat} {a b : Bytes} {p q : Nat}
    (hx : x ≠ 0) (hy : y ≠ 0)
    (h : List.replicate p 0 ++ x :: a = List.replicate q 0 ++ y :: b) :
    x :: a = y :: b := by
  induction p generalizing q with
  | zero =>
    match q with
    | 0 => simpa using h
    | q + 1 =>
      simp only [List.replicate_zero, List.nil_append, List.replicate_succ,
        List.cons_append] at h
      injection h with h1 _
      exact absurd h1 hx
  | succ p ih =>
    match q with
    | 0 =>
      simp only [List.replicate_zero, List.nil_append, List.replicate_succ,
        List.cons_append] at h
      injection h with h1 _
      exact absurd h1.symm hy
    | q + 1 =>
      simp only [List.replicate_succ, List.cons_append] at h
      injection h with _ h2
      exact ih h2

theorem bytesToHash_cons_inj {x y : Nat} {a b : Bytes}
    (hx : x ≠ 0) (hy : y ≠ 0) (ha : (x :: a).length ≤ 32) (hb : (y :: b).length ≤ 32)
    (h : bytesToHash (x :: a) = bytesToHash (y :: b)) : x :: a = y :: b := by
  rw [bytesToHash_eq_pad ha, bytesToHash_eq_pad hb] at h
  exact replicate_zero_append_cons_inj hx hy h

/-! ## Toolkit: key-shape and key-disjointness lemmas -/

theorem counterKey_eq_pad {p : Nat} {v : Nat} (hv : (beBytes v).length ≤ 30) :
    counterKey [p] v =
      List.replicate (30 - (beBytes v).length) 0 ++ p :: delim :: beBytes v := by
  have hlen : (p :: delim :: beBytes v).length ≤ 32 := by
    simp only [List.length_cons]; omega
  have : ([p] ++ delim :: beBytes v) = p :: delim :: beBytes v := rfl
  rw [counterKey, this, bytesToHash_eq_pad hlen]
  congr 1
  simp only [List.length_cons]
  congr 1
  omega

theorem counterKey_ne_counterKey {p₁ p₂ : Nat} {i j : Nat}
    (h₁ : p₁ ≠ 0) (h₂ : p₂ ≠ 0) (hp : p₁ ≠ p₂)
    (hi : (beBytes i).length ≤ 30) (hj : (beBytes j).length ≤ 30) :
    counterKey [p₁] i ≠ counterKey [p₂] j := by
  intro h
  have h' : bytesToHash (p₁ :: delim :: beBytes i) = bytesToHash (p₂ :: delim :: beBytes j) := by
    simpa [counterKey] using h
  have l1 : (p₁ :: delim :: beBytes i).length ≤ 32 := by simp only [List.length_cons]; omega
  have l2 : (p₂ :: delim :: beBytes j).length ≤ 32 := by simp only [List.length_cons]; omega
  have hcons := bytesToHash_cons_inj h₁ h₂ l1 l2 h'
  injection hcons with h1 _
  exact hp h1

theorem counterKey_same_pfx_inj {p : Nat} {i j : Nat} (hp : p ≠ 0)
    (hi : (beBytes i).length ≤ 30) (hj : (beBytes j).length ≤ 30)
    (hiB : i < 256 ^ 40) (hjB : j < 256 ^ 40)
    (h : counterKey [p] i = counterKey [p] j) : i = j := by
  have h' : bytesToHash (p :: delim :: beBytes i) = bytesToHash (p :: delim :: beBytes j) := by
    simpa [counterKey] using h
  have l1 : (p :: delim :: beBytes i).length ≤ 32 := by simp only [List.length_cons]; omega
  have l2 : (p :: delim :: beBytes j).length ≤ 32 := by simp only [List.length_cons]; omega
  have hcons := bytesToHash_cons_inj hp hp l1 l2 h'
  injection hcons with _ hcons
  injection hcons with _ hcons
  exact beBytes_injOn hiB hjB hcons

theorem counterKey_ne_single {p₁ p₂ : Nat} {i : Nat}
    (h₁ : p₁ ≠ 0) (h₂ : p₂ ≠ 0) (hi : (beBytes i).length ≤ 30) :
    counterKey [p₁] i ≠ bytesToHash [p₂] := by
  intro h
  have h' : bytesToHash (p₁ :: delim :: beBytes i) = bytesToHash (p₂ :: ([] : Bytes)) := by
    simpa [counterKey] using h
  have l1 : (p₁ :: delim :: beBytes i).length ≤ 32 := by simp only [List.length_cons]; omega
  have l2 : (p₂ :: ([] : Bytes)).length ≤ 32 := by simp
  have hcons := bytesToHash_cons_inj h₁ h₂ l1 l2 h'
  injection hcons with _ hcons
  simp at hcons

theorem single_ne_single {p₁ p₂ : Nat} (h₁ : p₁ ≠ 0) (h₂ : p₂ ≠ 0) (hp : p₁ ≠ p₂) :
    bytesToHash [p₁] ≠ bytesToHash [p₂] := by
  intro h
  have h' : bytesToHash (p₁ :: ([] : Bytes)) = bytesToHash (p₂ :: ([] : Bytes)) := h
  have l1 : (p₁ :: ([] : Bytes)).length ≤ 32 := by simp
  have l2 : (p₂ :: ([] : Bytes)).length ≤ 32 := by simp
  have hcons := bytesToHash_cons_inj h₁ h₂ l1 l2 h'
  injection hcons with h1 _
  exact hp h1

/-! ## Toolkit: state read/write lemmas -/

@[simp] theorem getState_setState_self (s : EvmState) (k v : Bytes) :
    getState (setState s k v) k = v := by
  simp [getState, setState]

theorem getState_setState_ne {k k' : Bytes} (h : k' ≠ k) (s : EvmState) (v : Bytes) :
    getState (setState s k v) k' = getState s k' := by
  simp [getState, setState, h]

@[simp] theorem setState_balances (s : EvmState) (k v : Bytes) :
    (setState s k v).balances = s.balances := rfl

@[simp] theorem setState_existsAcct (s : EvmState) (k v : Bytes) :
    (setState s k v).existsAcct = s.existsAcct := rfl

@[simp] theorem addBalance_storage (s : EvmState) (a : Bytes) (n : Nat) :
    (addBalance s a n).storage = s.storage := rfl

@[simp] theorem addBalance_existsAcct (s : EvmState) (a : Bytes) (n : Nat) :
    (addBalance s a n).existsAcct = s.existsAcct := rfl

@[simp] theorem createAccount_storage (s : EvmState) (a : Bytes) :
    (createAccount s a).storage = s.storage := rfl

@[simp] theorem createAccount_balances (s : EvmState) (a : Bytes) :
    (createAccount s a).balances = s.balances := rfl

@[simp] theorem addBalance_balances_self (s : EvmState) (a : Bytes) (n : Nat) :
    (addBalance s a n).balances a = s.balances a + n := by
  simp [addBalance]

theorem addBalance_balances_ne {a b : Bytes} (h : b ≠ a) (s : EvmState) (n : Nat) :
    (addBalance s a n).balances b = s.balances b := by
  simp [addBalance, h]

@[simp] theorem createAccount_existsAcct_self (s : EvmState) (a : Bytes) :
    (createAccount s a).existsAcct a = true := by
  simp [createAccount]

/-! ## Shared helper lemmas about deductGas and the operation bodies -/

theorem deductGas_eq_some {g c g' : Nat} :
    deductGas g c = some g' ↔ c ≤ g ∧ g' = g - c := by
  unfold deductGas
  by_cases h : g < c
  · rw [if_pos h]
    constructor
    · intro hx; exact absurd hx (by simp)
    · intro hx; exact absurd hx.1 (by omega)
  · rw [if_neg h]
    constructor
    · intro hx; injection hx with hx; omega
    · intro hx; rw [hx.2]

theorem deductGas_of_le {g c : Nat} (h : c ≤ g) : deductGas g c = some (g - c) := by
  unfold deductGas
  rw [if_neg (by omega)]

/-- Characterization of the success path of revealRandomParty: under the
preconditions of a successful reveal (revealing phase, index in range,
live commitment, matching hash, not readOnly) and counter bounds that keep
every touched key below 32 raw bytes, the call returns ok with the fully
explicit post-state. -/
theorem reveal_success_eq (keccak : Bytes → Bytes) (t : Nat) (caller input : Bytes)
    (gas : Nat) (s : EvmState)
    (hgas : RevealGasCost ≤ gas)
    (hcd : getRandomPartyBig s commitDeadlineKey ≠ 0)
    (hrd : getRandomPartyBig s revealDeadlineKey ≠ 0)
    (ht1 : getRandomPartyBig s commitDeadlineKey ≤ t)
    (ht2 : t < getRandomPartyBig s revealDeadlineKey)
    (hlen : input.length = 64)
    (hidx : beVal (input.take 32) < getRandomPartyBig s commitPfx)
    (hslot : beVal (getCounterHash s commitPfx (beVal (input.take 32))) ≠ 0)
    (hmatch : getCounterHash s commitPfx (beVal (input.take 32)) =
      keccak (bytesToHash (input.drop 32)))
    (hccB : getRandomPartyBig s commitPfx ≤ 256 ^ 30)
    (hrcB : getRandomPartyBig s revealPfx < 256 ^ 30) :
    revealRandomParty keccak t caller input gas false s =
      ⟨.ok [], gas - RevealGasCost,
        setState
          (setState
            (setState
              (setState
                (setState
                  (addBalance
                    (if s.existsAcct (getFundRecipient s commitOwnerPfx (beVal (input.take 32)))
                      then s
                      else createAccount s
                        (getFundRecipient s commitOwnerPfx (beVal (input.take 32))))
                    (getFundRecipient s commitOwnerPfx (beVal (input.take 32)))
                    (getRandomPartyBig s commitFeeKey))
                  (counterKey commitPfx (beVal (input.take 32))) zero32)
                (counterKey commitOwnerPfx (beVal (input.take 32))) zero32)
              (bytesToHash revealPfx) (bigToHash (getRandomPartyBig s revealPfx + 1)))
            (counterKey revealPfx (getRandomPartyBig s revealPfx)) (bytesToHash (input.drop 32)))
          (counterKey rewardPfx (getRandomPartyBig s revealPfx))
          (bytesToHash (getFundRecipient s commitOwnerPfx (beVal (input.take 32))))⟩ := by
  have hidxLen : (beBytes (beVal (input.take 32))).length ≤ 30 :=
    beBytes_length_le (by omega) (by omega)
  have hg : deductGas gas RevealGasCost = some (gas - RevealGasCost) := deductGas_of_le hgas
  have h1 : ¬(getRandomPartyBig s commitDeadlineKey = 0 ∨
      getRandomPartyBig s revealDeadlineKey = 0) := by
    push_neg; exact ⟨hcd, hrd⟩
  have h2 : ¬ t < getRandomPartyBig s commitDeadlineKey := Nat.not_lt.mpr ht1
  have h3 : ¬ getRandomPartyBig s revealDeadlineKey ≤ t := Nat.not_le.mpr ht2
  have h4 : ¬ input.length ≠ 64 := by simp [hlen]
  have h5 : ¬ getRandomPartyBig s commitPfx ≤ beVal (input.take 32) := Nat.not_le.mpr hidx
  have h6 : ¬ beVal (getCounterHash s commitPfx (beVal (input.take 32))) = 0 := hslot
  have h7 : ¬ getCounterHash s commitPfx (beVal (input.take 32)) ≠
      keccak (bytesToHash (input.drop 32)) := not_not_intro hmatch
  unfold revealRandomParty
  rw [hg]
  simp only [h1, h2, h3, h4, h5, h6, h7, if_false, ite_false, Bool.false_eq_true,
    addCounterHash]
  have hfeeR : getRandomPartyBig
      (if s.existsAcct (getFundRecipient s commitOwnerPfx (beVal (input.take 32)))
        then s
        else createAccount s (getFundRecipient s commitOwnerPfx (beVal (input.take 32))))
      commitFeeKey = getRandomPartyBig s commitFeeKey := by
    by_cases hex : s.existsAcct (getFundRecipient s commitOwnerPfx (beVal (input.take 32)))
    · rw [if_pos hex]
    · rw [if_neg hex]; rfl
  have d84 : bytesToHash revealPfx ≠ counterKey commitOwnerPfx (beVal (input.take 32)) :=
    Ne.symm (counterKey_ne_single (by decide) (by decide) hidxLen)
  have d34 : bytesToHash revealPfx ≠ counterKey commitPfx (beVal (input.take 32)) :=
    Ne.symm (counterKey_ne_single (by decide) (by decide) hidxLen)
  have hrcD : getRandomPartyBig
      (deleteFundRecipient
        (deleteCounterHash
          (addBalance
            (if s.existsAcct (getFundRecipient s commitOwnerPfx (beVal (input.take 32)))
              then s
              else createAccount s (getFundRecipient s commitOwnerPfx (beVal (input.take 32))))
            (getFundRecipient s commitOwnerPfx (beVal (input.take 32)))
            (getRandomPartyBig s commitFeeKey))
          commitPfx (beVal (input.take 32)))
        commitOwnerPfx (beVal (input.take 32)))
      revealPfx = getRandomPartyBig s revealPfx := by
    unfold getRandomPartyBig deleteFundRecipient deleteCounterHash
    rw [getState_setState_ne d84, getState_setState_ne d34]
    by_cases hex : s.existsAcct (getFundRecipient s commitOwnerPfx (beVal (input.take 32)))
    · rw [if_pos hex]; rfl
    · rw [if_neg hex]; rfl
  rw [hfeeR, hrcD]
  rfl

/-! ## Claim C6 -/

/-- C6: every successful reveal(idx, preimage) in the revealing phase
credits exactly commitStake (the commitFee slot) to the address stored at
commitOwner[idx] — and to no other account — marks that account as
existing, zeroes commit[idx] and commitOwner[idx], writes the preimage at
reveal[revealCount] and the same address at rewardRecip[revealCount], and
increments revealCount by one.  The counter bounds keep every touched key
below 32 raw bytes, and the well-formedness hypothesis says the stored
owner word is a 32-byte word (true of every word the code ever stores). -/
theorem C6_reveal_success_effects (keccak : Bytes → Bytes) (t : Nat) (caller input : Bytes)
    (gas : Nat) (s : EvmState)
    (hgas : RevealGasCost ≤ gas)
    (hcd : getRandomPartyBig s commitDeadlineKey ≠ 0)
    (hrd : getRandomPartyBig s revealDeadlineKey ≠ 0)
    (ht1 : getRandomPartyBig s commitDeadlineKey ≤ t)
    (ht2 : t < getRandomPartyBig s revealDeadlineKey)
    (hlen : input.length = 64)
    (hidx : beVal (input.take 32) < getRandomPartyBig s commitPfx)
    (hslot : beVal (getCounterHash s commitPfx (beVal (input.take 32))) ≠ 0)
    (hmatch : getCounterHash s commitPfx (beVal (input.take 32)) =
      keccak (bytesToHash (input.drop 32)))
    (hccB : getRandomPartyBig s commitPfx ≤ 256 ^ 30)
    (hrcB : getRandomPartyBig s revealPfx < 256 ^ 30)
    (hwf : (getState s (counterKey commitOwnerPfx (beVal (input.take 32)))).length = 32) :
    ∃ s1,
      revealRandomParty keccak t caller input gas false s =
        ⟨.ok [], gas - RevealGasCost, s1⟩ ∧
      s1.balances = (fun a =>
        if a = getFundRecipient s commitOwnerPfx (beVal (input.take 32))
        then s.balances a + getRandomPartyBig s commitFeeKey
        else s.balances a) ∧
      s1.existsAcct (getFundRecipient s commitOwnerPfx (beVal (input.take 32))) = true ∧
      getCounterHash s1 commitPfx (beVal (input.take 32)) = zero32 ∧
      getState s1 (counterKey commitOwnerPfx (beVal (input.take 32))) = zero32 ∧
      getCounterHash s1 revealPfx (getRandomPartyBig s revealPfx) =
        bytesToHash (input.drop 32) ∧
      getFundRecipient s1 rewardPfx (getRandomPartyBig s revealPfx) =
        getFundRecipient s commitOwnerPfx (beVal (input.take 32)) ∧
      getRandomPartyBig s1 revealPfx = getRandomPartyBig s revealPfx + 1 := by
  have hidxLen : (beBytes (beVal (input.take 32))).length ≤ 30 :=
    beBytes_length_le (by omega) (by omega)
  have hrcLen : (beBytes (getRandomPartyBig s revealPfx)).length ≤ 30 :=
    beBytes_length_le (by omega) (by omega)
  have dA : counterKey commitPfx (beVal (input.take 32)) ≠
      counterKey rewardPfx (getRandomPartyBig s revealPfx) :=
    counterKey_ne_counterKey (by decide) (by decide) (by decide) hidxLen hrcLen
  have dB : counterKey commitPfx (beVal (input.take 32)) ≠
      counterKey revealPfx (getRandomPartyBig s revealPfx) :=
    counterKey_ne_counterKey (by decide) (by decide) (by decide) hidxLen hrcLen
  have dC : counterKey commitPfx (beVal (input.take 32)) ≠ bytesToHash revealPfx :=
    counterKey_ne_single (by decide) (by decide) hidxLen
  have dD : counterKey commitPfx (beVal (input.take 32)) ≠
      counterKey commitOwnerPfx (beVal (input.take 32)) :=
    counterKey_ne_counterKey (by decide) (by decide) (by decide) hidxLen hidxLen
  have dE : counterKey commitOwnerPfx (beVal (input.take 32)) ≠
      counterKey rewardPfx (getRandomPartyBig s revealPfx) :=
    counterKey_ne_counterKey (by decide) (by decide) (by decide) hidxLen hrcLen
  have dF : counterKey commitOwnerPfx (beVal (input.take 32)) ≠
      counterKey revealPfx (getRandomPartyBig s revealPfx) :=
    counterKey_ne_counterKey (by decide) (by decide) (by decide) hidxLen hrcLen
  have dG : counterKey commitOwnerPfx (beVal (input.take 32)) ≠ bytesToHash revealPfx :=
    counterKey_ne_single (by decide) (by decide) hidxLen
  have dH : counterKey revealPfx (getRandomPartyBig s revealPfx) ≠
      counterKey rewardPfx (getRandomPartyBig s revealPfx) :=
    counterKey_ne_counterKey (by decide) (by decide) (by decide) hrcLen hrcLen
  have dI : bytesToHash revealPfx ≠ counterKey rewardPfx (getRandomPartyBig s revealPfx) :=
    Ne.symm (counterKey_ne_single (by decide) (by decide) hrcLen)
  have dJ : bytesToHash revealPfx ≠ counterKey revealPfx (getRandomPartyBig s revealPfx) :=
    Ne.symm (counterKey_ne_single (by decide) (by decide) hrcLen)
  refine ⟨_, reveal_success_eq keccak t caller input gas s hgas hcd hrd ht1 ht2 hlen hidx
    hslot hmatch hccB hrcB, ?_, ?_, ?_, ?_, ?_, ?_, ?_⟩
  · simp only [setState_balances]
    funext a
    by_cases hex : s.existsAcct (getFundRecipient s commitOwnerPfx (beVal (input.take 32)))
    · rw [if_pos hex]
      simp only [addBalance]
    · rw [if_neg hex]
      simp only [addBalance, createAccount]
  · simp only [setState_existsAcct, addBalance_existsAcct]
    by_cases hex : s.existsAcct (getFundRecipient s commitOwnerPfx (beVal (input.take 32)))
    · rw [if_pos hex]; exact hex
    · rw [if_neg hex]; exact createAccount_existsAcct_self s _
  · unfold getCounterHash
    rw [getState_setState_ne dA, getState_setState_ne dB, getState_setState_ne dC,
      getState_setState_ne dD, getState_setState_self]
  · rw [getState_setState_ne dE, getState_setState_ne dF, getState_setState_ne dG,
      getState_setState_self]
  · unfold getCounterHash
    rw [getState_setState_ne dH, getState_setState_self]
  · have hlen20 : (getFundRecipient s commitOwnerPfx (beVal (input.take 32))).length = 20 := by
      unfold getFundRecipient
      rw [List.length_drop, hwf]
    show (getState _ (counterKey rewardPfx (getRandomPartyBig s revealPfx))).drop 12 = _
    rw [getState_setState_self, bytesToHash_eq_pad (by omega), hlen20]
    exact List.drop_left' (by simp)
  · show beVal (getState _ (bytesToHash revealPfx)) = getRandomPartyBig s revealPfx + 1
    rw [getState_setState_ne dI, getState_setState_ne dJ, getState_setState_self]
    exact beVal_bigToHash (by omega)

/-- Characterization of the success path of commitRandomParty: under the
committing-phase preconditions and a sufficient transferred value the call
appends the parsed hash at the current commit counter, records the caller
as owner, bumps the counter and returns the pre-increment index. -/
theorem commit_success_eq (t : Nat) (caller input : Bytes) (gas value : Nat) (s : EvmState)
    (hgas : CommitGasCost ≤ gas)
    (hcd : getRandomPartyBig s commitDeadlineKey ≠ 0)
    (ht : t < getRandomPartyBig s commitDeadlineKey)
    (hlen : input.length = 32)
    (hfee : getRandomPartyBig s commitFeeKey ≤ value) :
    commitRandomParty t caller input gas value false s =
      ⟨.ok (bigToHash (getRandomPartyBig s commitPfx)), gas - CommitGasCost,
        setFundRecipient
          (setState (setRandomPartyBig s commitPfx (getRandomPartyBig s commitPfx + 1))
            (counterKey commitPfx (getRandomPartyBig s commitPfx)) (bytesToHash input))
          commitOwnerPfx (getRandomPartyBig s commitPfx) caller⟩ := by
  have h2 : ¬ getRandomPartyBig s commitDeadlineKey ≤ t := Nat.not_le.mpr ht
  have h3 : ¬ input.length ≠ 32 := by simp [hlen]
  have h4 : ¬ value < getRandomPartyBig s commitFeeKey := Nat.not_lt.mpr hfee
  unfold commitRandomParty
  rw [deductGas_of_le hgas]
  simp only [hcd, h2, h3, h4, if_false, ite_false, Bool.false_eq_true, addCounterHash]

/-- Characterization of the duplicate-reveal rejection: in the revealing
phase, a reveal of an in-range index whose commit slot reads as the zero
word fails with DuplicateReveal and returns the state unchanged, for any
preimage and any readOnly flag. -/
theorem reveal_dup_eq (keccak : Bytes → Bytes) (t : Nat) (caller input : Bytes)
    (gas : Nat) (ro : Bool) (s : EvmState)
    (hgas : RevealGasCost ≤ gas)
    (hcd : getRandomPartyBig s commitDeadlineKey ≠ 0)
    (hrd : getRandomPartyBig s revealDeadlineKey ≠ 0)
    (ht1 : getRandomPartyBig s commitDeadlineKey ≤ t)
    (ht2 : t < getRandomPartyBig s revealDeadlineKey)
    (hlen : input.length = 64)
    (hidx : beVal (input.take 32) < getRandomPartyBig s commitPfx)
    (hslot0 : beVal (getCounterHash s commitPfx (beVal (input.take 32))) = 0) :
    revealRandomParty keccak t caller input gas ro s =
      ⟨.error .duplicateReveal, gas - RevealGasCost, s⟩ := by
  have h1 : ¬(getRandomPartyBig s commitDeadlineKey = 0 ∨
      getRandomPartyBig s revealDeadlineKey = 0) := by
    push_neg; exact ⟨hcd, hrd⟩
  have h2 : ¬ t < getRandomPartyBig s commitDeadlineKey := Nat.not_lt.mpr ht1
  have h3 : ¬ getRandomPartyBig s revealDeadlineKey ≤ t := Nat.not_le.mpr ht2
  have h4 : ¬ input.length ≠ 64 := by simp [hlen]
  have h5 : ¬ getRandomPartyBig s commitPfx ≤ beVal (input.take 32) := Nat.not_le.mpr hidx
  unfold revealRandomParty
  rw [deductGas_of_le hgas]
  simp only [h1, h2, h3, h4, h5, hslot0, if_false, ite_false, if_true, ite_true]

/-! ## Toolkit for the result-table invariant (claim C8) -/

/-- The facts claim C8 needs of one operation step from s to s2: the
result counter does not decrease and grows by at most one, the commit and
reveal counters grow by at most one, and every already-written result slot
keeps its value. -/
def ResultFacts (s s2 : EvmState) : Prop :=
  getRandomPartyBig s resultPfx ≤ getRandomPartyBig s2 resultPfx ∧
  getRandomPartyBig s2 resultPfx ≤ getRandomPartyBig s resultPfx + 1 ∧
  getRandomPartyBig s2 commitPfx ≤ getRandomPartyBig s commitPfx + 1 ∧
  getRandomPartyBig s2 revealPfx ≤ getRandomPartyBig s revealPfx + 1 ∧
  ∀ r, r < getRandomPartyBig s resultPfx → getResultHash s2 r = getResultHash s r

theorem ResultFacts_refl (s : EvmState) : ResultFacts s s :=
  ⟨le_rfl, by omega, by omega, by omega, fun _ _ => rfl⟩

theorem getBig_setState_ne {K key : Bytes} (h : bytesToHash key ≠ K) (s : EvmState)
    (v : Bytes) : getRandomPartyBig (setState s K v) key = getRandomPartyBig s key := by
  unfold getRandomPartyBig
  rw [getState_setState_ne h]

theorem getResultHash_setState_ne {K : Bytes} {r : Nat} (h : counterKey resultPfx r ≠ K)
    (s : EvmState) (v : Bytes) :
    getResultHash (setState s K v) r = getResultHash s r := by
  unfold getResultHash
  rw [getState_setState_ne h]

theorem getBig_setState_self (s : EvmState) (key : Bytes) (v : Nat) (hv : v < 256 ^ 32) :
    getRandomPartyBig (setState s (bytesToHash key) (bigToHash v)) key = v := by
  unfold getRandomPartyBig
  rw [getState_setState_self]
  exact beVal_bigToHash hv

theorem getBig_storage_congr {s2 s : EvmState} (h : s2.storage = s.storage) (key : Bytes) :
    getRandomPartyBig s2 key = getRandomPartyBig s key := by
  unfold getRandomPartyBig getState
  rw [h]

theorem getResultHash_storage_congr {s2 s : EvmState} (h : s2.storage = s.storage)
    (r : Nat) : getResultHash s2 r = getResultHash s r := by
  unfold getResultHash getState
  rw [h]

theorem ResultFacts_of_storage_eq {s s2 : EvmState} (h : s2.storage = s.storage) :
    ResultFacts s s2 := by
  refine ⟨le_of_eq (getBig_storage_congr h resultPfx).symm, ?_, ?_, ?_,
    fun r _ => getResultHash_storage_congr h r⟩
  · rw [getBig_storage_congr h resultPfx]; omega
  · rw [getBig_storage_congr h commitPfx]; omega
  · rw [getBig_storage_congr h revealPfx]; omega

/-- The sweep loop only writes the table and recipient keys of the indices
it visits, so any other key reads unchanged in both the out-of-gas and the
completed outcome. -/
theorem sweepRound_storage (pfx rpfx : Bytes) (key : Bytes) :
    ∀ (k i g : Nat) (s : EvmState) (sB : EvmState),
      (∀ j, i ≤ j → j < i + k → key ≠ counterKey pfx j ∧ key ≠ counterKey rpfx j) →
      (sweepRound pfx rpfx k i g s = .error sB ∨
        (∃ g2, sweepRound pfx rpfx k i g s = .ok (g2, sB))) →
      getState sB key = getState s key := by
  intro k
  induction k with
  | zero =>
    intro i g s sB _ hout
    rcases hout with h | ⟨g2, h⟩
    · exact absurd h (by simp [sweepRound])
    · simp only [sweepRound] at h
      injection h with h
      injection h with h1 h2
      rw [← h2]
  | succ k ih =>
    intro i g s sB hkey hout
    simp only [sweepRound] at hout
    cases hd : deductGas g DeleteGasCost with
    | none =>
      rw [hd] at hout
      rcases hout with h | ⟨g2, h⟩
      · injection h with h; rw [← h]
      · exact absurd h (by simp)
    | some g1 =>
      rw [hd] at hout
      have hthis := hkey i (le_rfl) (by omega)
      have hrest : ∀ j, i + 1 ≤ j → j < i + 1 + k → key ≠ counterKey pfx j ∧
          key ≠ counterKey rpfx j := by
        intro j h1 h2
        exact hkey j (by omega) (by omega)
      have hout2 := ih (i + 1) g1
        (deleteFundRecipient (deleteCounterHash s pfx i) rpfx i) sB hrest hout
      rw [hout2]
      unfold deleteFundRecipient deleteCounterHash
      rw [getState_setState_ne hthis.2, getState_setState_ne hthis.1]

/-- The compute loop never writes the word store, in either outcome. -/
theorem computeLoop_storage (er : Nat) (sr : Bool) :
    ∀ (k i g : Nat) (buf : Bytes) (s : EvmState) (sB : EvmState),
      (computeLoop er sr k i g buf s = .error sB ∨
        (∃ g2 buf2, computeLoop er sr k i g buf s = .ok (g2, buf2, sB))) →
      sB.storage = s.storage := by
  intro k
  induction k with
  | zero =>
    intro i g buf s sB hout
    rcases hout with h | ⟨g2, buf2, h⟩
    · exact absurd h (by simp [computeLoop])
    · simp only [computeLoop] at h
      injection h with h
      injection h with h1 h
      injection h with h2 h3
      rw [← h3]
  | succ k ih =>
    intro i g buf s sB hout
    simp only [computeLoop] at hout
    cases hd : deductGas g ComputeItemCost with
    | none =>
      rw [hd] at hout
      rcases hout with h | ⟨g2, buf2, h⟩
      · injection h with h; rw [← h]
      · exact absurd h (by simp)
    | some g1 =>
      rw [hd] at hout
      cases sr with
      | false =>
        simp only [if_false, ite_false, Bool.false_eq_true] at hout
        exact ih (i + 1) g1 (copyAt buf (getCounterHash s revealPfx i) i) s sB hout
      | true =>
        simp only [if_true, ite_true] at hout
        cases hd2 : deductGas g1 ComputeRewardCost with
        | none =>
          rw [hd2] at hout
          rcases hout with h | ⟨g2, buf2, h⟩
          · injection h with h; rw [← h]
          · exact absurd h (by simp)
        | some g2 =>
          rw [hd2] at hout
          have hst := ih (i + 1) g2 (copyAt buf (getCounterHash s revealPfx i) i)
            (addBalance
              (if s.existsAcct (getFundRecipient s rewardPfx i) then s
               else createAccount s (getFundRecipient s rewardPfx i))
              (getFundRecipient s rewardPfx i) er) sB hout
          rw [hst]
          by_cases hex : s.existsAcct (getFundRecipient s rewardPfx i)
          · rw [if_pos hex]; rfl
          · rw [if_neg hex]; rfl

theorem reward_state_eq (t : Nat) (input : Bytes) (gas : Nat) (s : EvmState) :
    (rewardRandomParty t input gas s).state = s := by
  unfold rewardRandomParty
  cases hd : deductGas gas RewardGasCost with
  | none => rfl
  | some g1 => split_ifs <;> rfl

theorem result_state_eq (input : Bytes) (gas : Nat) (s : EvmState) :
    (resultRandomParty input gas s).state = s := by
  unfold resultRandomParty
  cases hd : deductGas gas ResultCost with
  | none => rfl
  | some g1 => split_ifs <;> rfl

theorem next_state_eq (input : Bytes) (gas : Nat) (s : EvmState) :
    (nextRandomParty input gas s).state = s := by
  unfold nextRandomParty
  cases hd : deductGas gas NextCost with
  | none => rfl
  | some g1 => split_ifs <;> rfl

theorem sponsor_resultFacts (t : Nat) (input : Bytes) (gas value : Nat) (ro : Bool)
    (s : EvmState) (hres : getRandomPartyBig s resultPfx < 256 ^ 30) :
    ResultFacts s (sponsorRandomParty t input gas value ro s).state := by
  unfold sponsorRandomParty
  cases hd : deductGas gas SponsorGasCost with
  | none => exact ResultFacts_refl s
  | some g1 =>
    split_ifs with h1 h2 h3 h4
    · exact ResultFacts_refl s
    · exact ResultFacts_refl s
    · exact ResultFacts_refl s
    · exact ResultFacts_refl s
    · show ResultFacts s (setState s (bytesToHash rewardPfx)
        (bigToHash (getRandomPartyBig s rewardPfx + value)))
      have d5 : bytesToHash resultPfx ≠ bytesToHash rewardPfx :=
        single_ne_single (by decide) (by decide) (by decide)
      have d3 : bytesToHash commitPfx ≠ bytesToHash rewardPfx :=
        single_ne_single (by decide) (by decide) (by decide)
      have d4 : bytesToHash revealPfx ≠ bytesToHash rewardPfx :=
        single_ne_single (by decide) (by decide) (by decide)
      refine ⟨?_, ?_, ?_, ?_, ?_⟩
      · rw [getBig_setState_ne d5]
      · rw [getBig_setState_ne d5]; omega
      · rw [getBig_setState_ne d3]; omega
      · rw [getBig_setState_ne d4]; omega
      · intro r hr
        have hrLen : (beBytes r).length ≤ 30 := beBytes_length_le (by omega) (by omega)
        exact getResultHash_setState_ne
          (counterKey_ne_single (by decide) (by decide) hrLen) s _

theorem commit_resultFacts (t : Nat) (caller input : Bytes) (gas value : Nat) (ro : Bool)
    (s : EvmState) (hcc : getRandomPartyBig s commitPfx < 256 ^ 30)
    (hres : getRandomPartyBig s resultPfx < 256 ^ 30) :
    ResultFacts s (commitRandomParty t caller input gas value ro s).state := by
  unfold commitRandomParty
  cases hd : deductGas gas CommitGasCost with
  | none => exact ResultFacts_refl s
  | some g1 =>
    split_ifs with h1 h2 h3 h4 h5
    · exact ResultFacts_refl s
    · exact ResultFacts_refl s
    · exact ResultFacts_refl s
    · exact ResultFacts_refl s
    · exact ResultFacts_refl s
    · show ResultFacts s (setState
        (setState (setState s (bytesToHash commitPfx)
          (bigToHash (getRandomPartyBig s commitPfx + 1)))
          (counterKey commitPfx (getRandomPartyBig s commitPfx)) (bytesToHash input))
        (counterKey commitOwnerPfx (getRandomPartyBig s commitPfx))
        (bytesToHash caller))
      have hccLen : (beBytes (getRandomPartyBig s commitPfx)).length ≤ 30 :=
        beBytes_length_le (by omega) (by omega)
      have d5a : bytesToHash resultPfx ≠
          counterKey commitOwnerPfx (getRandomPartyBig s commitPfx) :=
        Ne.symm (counterKey_ne_single (by decide) (by decide) hccLen)
      have d5b : bytesToHash resultPfx ≠
          counterKey commitPfx (getRandomPartyBig s commitPfx) :=
        Ne.symm (counterKey_ne_single (by decide) (by decide) hccLen)
      have d5c : bytesToHash resultPfx ≠ bytesToHash commitPfx :=
        single_ne_single (by decide) (by decide) (by decide)
      have d3a : bytesToHash commitPfx ≠
          counterKey commitOwnerPfx (getRandomPartyBig s commitPfx) :=
        Ne.symm (counterKey_ne_single (by decide) (by decide) hccLen)
      have d3b : bytesToHash commitPfx ≠
          counterKey commitPfx (getRandomPartyBig s commitPfx) :=
        Ne.symm (counterKey_ne_single (by decide) (by decide) hccLen)
      have d4a : bytesToHash revealPfx ≠
          counterKey commitOwnerPfx (getRandomPartyBig s commitPfx) :=
        Ne.symm (counterKey_ne_single (by decide) (by decide) hccLen)
      have d4b : bytesToHash revealPfx ≠
          counterKey commitPfx (getRandomPartyBig s commitPfx) :=
        Ne.symm (counterKey_ne_single (by decide) (by decide) hccLen)
      have d4c : bytesToHash revealPfx ≠ bytesToHash commitPfx :=
        single_ne_single (by decide) (by decide) (by decide)
      refine ⟨?_, ?_, ?_, ?_, ?_⟩
      · rw [getBig_setState_ne d5a, getBig_setState_ne d5b, getBig_setState_ne d5c]
      · rw [getBig_setState_ne d5a, getBig_setState_ne d5b, getBig_setState_ne d5c]; omega
      · rw [getBig_setState_ne d3a, getBig_setState_ne d3b,
          getBig_setState_self s commitPfx _ (by omega)]
      · rw [getBig_setState_ne d4a, getBig_setState_ne d4b, getBig_setState_ne d4c]; omega
      · intro r hr
        have hrLen : (beBytes r).length ≤ 30 := beBytes_length_le (by omega) (by omega)
        have dra : counterKey resultPfx r ≠
            counterKey commitOwnerPfx (getRandomPartyBig s commitPfx) :=
          counterKey_ne_counterKey (by decide) (by decide) (by decide) hrLen hccLen
        have drb : counterKey resultPfx r ≠
            counterKey commitPfx (getRandomPartyBig s commitPfx) :=
          counterKey_ne_counterKey (by decide) (by decide) (by decide) hrLen hccLen
        have drc : counterKey resultPfx r ≠ bytesToHash commitPfx :=
          counterKey_ne_single (by decide) (by decide) hrLen
        rw [getResultHash_setState_ne dra, getResultHash_setState_ne drb,
          getResultHash_setState_ne drc]

theorem getBig_addBalance (s : EvmState) (a : Bytes) (n : Nat) (key : Bytes) :
    getRandomPartyBig (addBalance s a n) key = getRandomPartyBig s key := rfl

theorem getBig_createAccount (s : EvmState) (a : Bytes) (key : Bytes) :
    getRandomPartyBig (createAccount s a) key = getRandomPartyBig s key := rfl

theorem getResultHash_addBalance (s : EvmState) (a : Bytes) (n : Nat) (r : Nat) :
    getResultHash (addBalance s a n) r = getResultHash s r := rfl

theorem getResultHash_createAccount (s : EvmState) (a : Bytes) (r : Nat) :
    getResultHash (createAccount s a) r = getResultHash s r := rfl

theorem reveal_resultFacts (keccak : Bytes → Bytes) (t : Nat) (caller input : Bytes)
    (gas : Nat) (ro : Bool) (s : EvmState)
    (hcc : getRandomPartyBig s commitPfx < 256 ^ 30)
    (hrc : getRandomPartyBig s revealPfx < 256 ^ 30)
    (hres : getRandomPartyBig s resultPfx < 256 ^ 30) :
    ResultFacts s (revealRandomParty keccak t caller input gas ro s).state := by
  cases hd : deductGas gas RevealGasCost with
  | none =>
    simp only [revealRandomParty, hd]
    exact ResultFacts_refl s
  | some g1 =>
    simp only [revealRandomParty, hd, addCounterHash, setRandomPartyBig, setFundRecipient,
      deleteCounterHash, deleteFundRecipient]
    split_ifs with h1 h2 h3 h4 h5 h6 h7 h8 hex
    · exact ResultFacts_refl s
    · exact ResultFacts_refl s
    · exact ResultFacts_refl s
    · exact ResultFacts_refl s
    · exact ResultFacts_refl s
    · exact ResultFacts_refl s
    · exact ResultFacts_refl s
    · exact ResultFacts_refl s
    all_goals (
      have hidxLen : (beBytes (beVal (input.take 32))).length ≤ 30 :=
        beBytes_length_le (by omega) (by omega);
      have hrcLen : (beBytes (getRandomPartyBig s revealPfx)).length ≤ 30 :=
        beBytes_length_le (by omega) (by omega);
      have d84 : bytesToHash revealPfx ≠ counterKey commitOwnerPfx (beVal (input.take 32)) :=
        Ne.symm (counterKey_ne_single (by decide) (by decide) hidxLen);
      have d34 : bytesToHash revealPfx ≠ counterKey commitPfx (beVal (input.take 32)) :=
        Ne.symm (counterKey_ne_single (by decide) (by decide) hidxLen);
      simp only [getBig_setState_ne d84, getBig_setState_ne d34, getBig_addBalance,
        getBig_createAccount];
      have e1 : bytesToHash resultPfx ≠ counterKey rewardPfx (getRandomPartyBig s revealPfx) :=
        Ne.symm (counterKey_ne_single (by decide) (by decide) hrcLen);
      have e2 : bytesToHash resultPfx ≠ counterKey revealPfx (getRandomPartyBig s revealPfx) :=
        Ne.symm (counterKey_ne_single (by decide) (by decide) hrcLen);
      have e3 : bytesToHash resultPfx ≠ bytesToHash revealPfx :=
        single_ne_single (by decide) (by decide) (by decide);
      have e4 : bytesToHash resultPfx ≠ counterKey commitOwnerPfx (beVal (input.take 32)) :=
        Ne.symm (counterKey_ne_single (by decide) (by decide) hidxLen);
      have e5 : bytesToHash resultPfx ≠ counterKey commitPfx (beVal (input.take 32)) :=
        Ne.symm (counterKey_ne_single (by decide) (by decide) hidxLen);
      have f1 : bytesToHash commitPfx ≠ counterKey rewardPfx (getRandomPartyBig s revealPfx) :=
        Ne.symm (counterKey_ne_single (by decide) (by decide) hrcLen);
      have f2 : bytesToHash commitPfx ≠ counterKey revealPfx (getRandomPartyBig s revealPfx) :=
        Ne.symm (counterKey_ne_single (by decide) (by decide) hrcLen);
      have f3 : bytesToHash commitPfx ≠ bytesToHash revealPfx :=
        single_ne_single (by decide) (by decide) (by decide);
      have f4 : bytesToHash commitPfx ≠ counterKey commitOwnerPfx (beVal (input.take 32)) :=
        Ne.symm (counterKey_ne_single (by decide) (by decide) hidxLen);
      have f5 : bytesToHash commitPfx ≠ counterKey commitPfx (beVal (input.take 32)) :=
        Ne.symm (counterKey_ne_single (by decide) (by decide) hidxLen);
      have g4a : bytesToHash revealPfx ≠ counterKey rewardPfx (getRandomPartyBig s revealPfx) :=
        Ne.symm (counterKey_ne_single (by decide) (by decide) hrcLen);
      have g4b : bytesToHash revealPfx ≠ counterKey revealPfx (getRandomPartyBig s revealPfx) :=
        Ne.symm (counterKey_ne_single (by decide) (by decide) hrcLen);
      refine ⟨?_, ?_, ?_, ?_, ?_⟩
      · simp only [getBig_setState_ne e1, getBig_setState_ne e2, getBig_setState_ne e3,
          getBig_setState_ne e4, getBig_setState_ne e5, getBig_addBalance,
          getBig_createAccount]
        omega
      · simp only [getBig_setState_ne e1, getBig_setState_ne e2, getBig_setState_ne e3,
          getBig_setState_ne e4, getBig_setState_ne e5, getBig_addBalance,
          getBig_createAccount]
        omega
      · simp only [getBig_setState_ne f1, getBig_setState_ne f2, getBig_setState_ne f3,
          getBig_setState_ne f4, getBig_setState_ne f5, getBig_addBalance,
          getBig_createAccount]
        omega
      · simp only [getBig_setState_ne g4a, getBig_setState_ne g4b]
        rw [getBig_setState_self _ revealPfx _ (by omega)]
      · intro r hr
        have hrLen : (beBytes r).length ≤ 30 := beBytes_length_le (by omega) (by omega)
        have r1 : counterKey resultPfx r ≠
            counterKey rewardPfx (getRandomPartyBig s revealPfx) :=
          counterKey_ne_counterKey (by decide) (by decide) (by decide) hrLen hrcLen
        have r2 : counterKey resultPfx r ≠
            counterKey revealPfx (getRandomPartyBig s revealPfx) :=
          counterKey_ne_counterKey (by decide) (by decide) (by decide) hrLen hrcLen
        have r3 : counterKey resultPfx r ≠ bytesToHash revealPfx :=
          counterKey_ne_single (by decide) (by decide) hrLen
        have r4 : counterKey resultPfx r ≠ counterKey commitOwnerPfx (beVal (input.take 32)) :=
          counterKey_ne_counterKey (by decide) (by decide) (by decide) hrLen hidxLen
        have r5 : counterKey resultPfx r ≠ counterKey commitPfx (beVal (input.take 32)) :=
          counterKey_ne_counterKey (by decide) (by decide) (by decide) hrLen hidxLen
        simp only [getResultHash_setState_ne r1, getResultHash_setState_ne r2,
          getResultHash_setState_ne r3, getResultHash_setState_ne r4,
          getResultHash_setState_ne r5, getResultHash_addBalance,
          getResultHash_createAccount])

theorem state_mk (o : Except RPError Bytes) (g : Nat) (st : EvmState) :
    RPResult.state ⟨o, g, st⟩ = st := rfl

theorem compute_resultFacts (keccak : Bytes → Bytes) (t : Nat) (input : Bytes) (gas : Nat)
    (ro : Bool) (s : EvmState)
    (hcc : getRandomPartyBig s commitPfx < 256 ^ 30)
    (hrc : getRandomPartyBig s revealPfx < 256 ^ 30)
    (hres : getRandomPartyBig s resultPfx < 256 ^ 30) :
    ∀ r0, computeRandomParty keccak t input gas ro s = some r0 →
      ResultFacts s r0.state := by
  intro r0 hr0
  cases hd : deductGas gas ComputeGasCost with
  | none =>
    simp only [computeRandomParty, hd, Option.some.injEq] at hr0
    rw [← hr0, state_mk]
    exact ResultFacts_refl s
  | some g1 =>
    simp only [computeRandomParty, hd, setRandomPartyBig, addResultHash] at hr0
    split_ifs at hr0 with h1 h2 h3 h4 hro
    · rw [← Option.some.inj hr0, state_mk]
      exact ResultFacts_refl s
    · rw [← Option.some.inj hr0, state_mk]
      exact ResultFacts_refl s
    · rw [← Option.some.inj hr0, state_mk]
      exact ResultFacts_refl s
    · cases hloop : computeLoop
        (getRandomPartyBig s rewardPfx / getRandomPartyBig s revealPfx)
        (decide (0 < getRandomPartyBig s rewardPfx / getRandomPartyBig s revealPfx))
        (getRandomPartyBig s revealPfx) 0 g1
        (List.replicate (32 * getRandomPartyBig s revealPfx) 0) s with
      | error sBad =>
        rw [hloop] at hr0
        rw [← Option.some.inj hr0, state_mk]
        exact ResultFacts_of_storage_eq
          (computeLoop_storage _ _ _ _ _ _ _ _ (Or.inl hloop))
      | ok p =>
        obtain ⟨g2, buf, s2⟩ := p
        rw [hloop] at hr0
        rw [← Option.some.inj hr0, state_mk]
        exact ResultFacts_of_storage_eq
          (computeLoop_storage _ _ _ _ _ _ _ _ (Or.inr ⟨g2, buf, hloop⟩))
    · cases hloop : computeLoop
        (getRandomPartyBig s rewardPfx / getRandomPartyBig s revealPfx)
        (decide (0 < getRandomPartyBig s rewardPfx / getRandomPartyBig s revealPfx))
        (getRandomPartyBig s revealPfx) 0 g1
        (List.replicate (32 * getRandomPartyBig s revealPfx) 0) s with
      | error sBad =>
        rw [hloop] at hr0
        rw [← Option.some.inj hr0, state_mk]
        exact ResultFacts_of_storage_eq
          (computeLoop_storage _ _ _ _ _ _ _ _ (Or.inl hloop))
      | ok p =>
        obtain ⟨g2, buf, s2⟩ := p
        rw [hloop] at hr0
        have hst : s2.storage = s.storage :=
          computeLoop_storage _ _ _ _ _ _ _ _ (Or.inr ⟨g2, buf, hloop⟩)
        rw [← Option.some.inj hr0, state_mk]
        have d51 : bytesToHash resultPfx ≠ bytesToHash commitDeadlineKey :=
          single_ne_single (by decide) (by decide) (by decide)
        have d52 : bytesToHash resultPfx ≠ bytesToHash revealDeadlineKey :=
          single_ne_single (by decide) (by decide) (by decide)
        have hC : getRandomPartyBig
            (setState (setState s2 (bytesToHash commitDeadlineKey) (bigToHash 0))
              (bytesToHash revealDeadlineKey) (bigToHash 0)) resultPfx =
            getRandomPartyBig s resultPfx := by
          rw [getBig_setState_ne d52, getBig_setState_ne d51]
          exact getBig_storage_congr hst _
        rw [hC]
        have hCLen : (beBytes (getRandomPartyBig s resultPfx)).length ≤ 30 :=
          beBytes_length_le (by omega) (by omega)
        have k5 : bytesToHash resultPfx ≠
            counterKey resultPfx (getRandomPartyBig s resultPfx) :=
          Ne.symm (counterKey_ne_single (by decide) (by decide) hCLen)
        have k3a : bytesToHash commitPfx ≠
            counterKey resultPfx (getRandomPartyBig s resultPfx) :=
          Ne.symm (counterKey_ne_single (by decide) (by decide) hCLen)
        have k3b : bytesToHash commitPfx ≠ bytesToHash resultPfx :=
          single_ne_single (by decide) (by decide) (by decide)
        have k3c : bytesToHash commitPfx ≠ bytesToHash revealDeadlineKey :=
          single_ne_single (by decide) (by decide) (by decide)
        have k3d : bytesToHash commitPfx ≠ bytesToHash commitDeadlineKey :=
          single_ne_single (by decide) (by decide) (by decide)
        have k4a : bytesToHash revealPfx ≠
            counterKey resultPfx (getRandomPartyBig s resultPfx) :=
          Ne.symm (counterKey_ne_single (by decide) (by decide) hCLen)
        have k4b : bytesToHash revealPfx ≠ bytesToHash resultPfx :=
          single_ne_single (by decide) (by decide) (by decide)
        have k4c : bytesToHash revealPfx ≠ bytesToHash revealDeadlineKey :=
          single_ne_single (by decide) (by decide) (by decide)
        have k4d : bytesToHash revealPfx ≠ bytesToHash commitDeadlineKey :=
          single_ne_single (by decide) (by decide) (by decide)
        refine ⟨?_, ?_, ?_, ?_, ?_⟩
        · rw [getBig_setState_ne k5, getBig_setState_self _ resultPfx _ (by omega)]
          omega
        · rw [getBig_setState_ne k5, getBig_setState_self _ resultPfx _ (by omega)]
        · rw [getBig_setState_ne k3a, getBig_setState_ne k3b, getBig_setState_ne k3c,
            getBig_setState_ne k3d, getBig_storage_congr hst]
          omega
        · rw [getBig_setState_ne k4a, getBig_setState_ne k4b, getBig_setState_ne k4c,
            getBig_setState_ne k4d, getBig_storage_congr hst]
          omega
        · intro r hr
          have hrLen : (beBytes r).length ≤ 30 := beBytes_length_le (by omega) (by omega)
          have q1 : counterKey resultPfx r ≠
              counterKey resultPfx (getRandomPartyBig s resultPfx) := by
            intro hq
            have := counterKey_same_pfx_inj (by decide) hrLen hCLen (by omega) (by omega) hq
            omega
          have q2 : counterKey resultPfx r ≠ bytesToHash resultPfx :=
            counterKey_ne_single (by decide) (by decide) hrLen
          have q3 : counterKey resultPfx r ≠ bytesToHash revealDeadlineKey :=
            counterKey_ne_single (by decide) (by decide) hrLen
          have q4 : counterKey resultPfx r ≠ bytesToHash commitDeadlineKey :=
            counterKey_ne_single (by decide) (by decide) hrLen
          rw [getResultHash_setState_ne q1, getResultHash_setState_ne q2,
            getResultHash_setState_ne q3, getResultHash_setState_ne q4]
          exact getResultHash_storage_congr hst r

theorem start_resultFacts (t : Nat) (input : Bytes) (gas : Nat) (ro : Bool) (s : EvmState)
    (hcc : getRandomPartyBig s commitPfx < 256 ^ 30)
    (hrc : getRandomPartyBig s revealPfx < 256 ^ 30)
    (hres : getRandomPartyBig s resultPfx < 256 ^ 30) :
    ResultFacts s (startRandomParty t input gas ro s).state := by
  cases hd : deductGas gas StartGasCost with
  | none =>
    simp only [startRandomParty, hd]
    exact ResultFacts_refl s
  | some g1 =>
    simp only [startRandomParty, hd, setRandomPartyBig]
    split_ifs with hA hB hC
    · exact ResultFacts_refl s
    · exact ResultFacts_refl s
    · exact ResultFacts_refl s
    · cases hsw1 : sweepRound commitPfx commitOwnerPfx (getRandomPartyBig s commitPfx)
        0 g1 s with
      | error sBad =>
        simp only [state_mk]
        have HS : ∀ key : Bytes,
            (∀ j, 0 ≤ j → j < 0 + getRandomPartyBig s commitPfx →
              key ≠ counterKey commitPfx j ∧ key ≠ counterKey commitOwnerPfx j) →
            getState sBad key = getState s key := fun key hk =>
          sweepRound_storage commitPfx commitOwnerPfx key
            (getRandomPartyBig s commitPfx) 0 g1 s sBad hk (Or.inl hsw1)
        have hjlen : ∀ j, j < 0 + getRandomPartyBig s commitPfx →
            (beBytes j).length ≤ 30 := fun j hj =>
          beBytes_length_le (by omega) (by omega)
        have H5 := HS (bytesToHash resultPfx) (fun j h0 hj =>
          ⟨Ne.symm (counterKey_ne_single (by decide) (by decide) (hjlen j hj)),
            Ne.symm (counterKey_ne_single (by decide) (by decide) (hjlen j hj))⟩)
        have H3 := HS (bytesToHash commitPfx) (fun j h0 hj =>
          ⟨Ne.symm (counterKey_ne_single (by decide) (by decide) (hjlen j hj)),
            Ne.symm (counterKey_ne_single (by decide) (by decide) (hjlen j hj))⟩)
        have H4 := HS (bytesToHash revealPfx) (fun j h0 hj =>
          ⟨Ne.symm (counterKey_ne_single (by decide) (by decide) (hjlen j hj)),
            Ne.symm (counterKey_ne_single (by decide) (by decide) (hjlen j hj))⟩)
        refine ⟨?_, ?_, ?_, ?_, ?_⟩
        · unfold getRandomPartyBig; rw [H5]
        · unfold getRandomPartyBig; rw [H5]; omega
        · unfold getRandomPartyBig; rw [H3]; omega
        · unfold getRandomPartyBig; rw [H4]; omega
        · intro r hr
          have hrLen : (beBytes r).length ≤ 30 := beBytes_length_le (by omega) (by omega)
          have HR := HS (counterKey resultPfx r) (fun j h0 hj =>
            ⟨counterKey_ne_counterKey (by decide) (by decide) (by decide) hrLen (hjlen j hj),
              counterKey_ne_counterKey (by decide) (by decide) (by decide) hrLen
                (hjlen j hj)⟩)
          unfold getResultHash
          rw [HR]
      | ok p =>
        obtain ⟨g2, s2⟩ := p
        simp only []
        have HS : ∀ key : Bytes,
            (∀ j, 0 ≤ j → j < 0 + getRandomPartyBig s commitPfx →
              key ≠ counterKey commitPfx j ∧ key ≠ counterKey commitOwnerPfx j) →
            getState s2 key = getState s key := fun key hk =>
          sweepRound_storage commitPfx commitOwnerPfx key
            (getRandomPartyBig s commitPfx) 0 g1 s s2 hk (Or.inr ⟨g2, hsw1⟩)
        have hjlen : ∀ j, j < 0 + getRandomPartyBig s commitPfx →
            (beBytes j).length ≤ 30 := fun j hj =>
          beBytes_length_le (by omega) (by omega)
        have H5 := HS (bytesToHash resultPfx) (fun j h0 hj =>
          ⟨Ne.symm (counterKey_ne_single (by decide) (by decide) (hjlen j hj)),
            Ne.symm (counterKey_ne_single (by decide) (by decide) (hjlen j hj))⟩)
        have H3 := HS (bytesToHash commitPfx) (fun j h0 hj =>
          ⟨Ne.symm (counterKey_ne_single (by decide) (by decide) (hjlen j hj)),
            Ne.symm (counterKey_ne_single (by decide) (by decide) (hjlen j hj))⟩)
        have H4 := HS (bytesToHash revealPfx) (fun j h0 hj =>
          ⟨Ne.symm (counterKey_ne_single (by decide) (by decide) (hjlen j hj)),
            Ne.symm (counterKey_ne_single (by decide) (by decide) (hjlen j hj))⟩)
        have d43 : bytesToHash revealPfx ≠ bytesToHash commitPfx :=
          single_ne_single (by decide) (by decide) (by decide)
        have d53 : bytesToHash resultPfx ≠ bytesToHash commitPfx :=
          single_ne_single (by decide) (by decide) (by decide)
        have hRVL : getRandomPartyBig
            (setState s2 (bytesToHash commitPfx) (bigToHash 0)) revealPfx =
            getRandomPartyBig s revealPfx := by
          rw [getBig_setState_ne d43]
          unfold getRandomPartyBig
          rw [H4]
        rw [hRVL]
        cases hsw2 : sweepRound revealPfx rewardPfx (getRandomPartyBig s revealPfx) 0 g2
          (setState s2 (bytesToHash commitPfx) (bigToHash 0)) with
        | error sBad2 =>
          simp only [state_mk]
          have HS2 : ∀ key : Bytes,
              (∀ j, 0 ≤ j → j < 0 + getRandomPartyBig s revealPfx →
                key ≠ counterKey revealPfx j ∧ key ≠ counterKey rewardPfx j) →
              getState sBad2 key =
                getState (setState s2 (bytesToHash commitPfx) (bigToHash 0)) key :=
            fun key hk => sweepRound_storage revealPfx rewardPfx key
              (getRandomPartyBig s revealPfx) 0 g2
              (setState s2 (bytesToHash commitPfx) (bigToHash 0)) sBad2 hk (Or.inl hsw2)
          have hjlen2 : ∀ j, j < 0 + getRandomPartyBig s revealPfx →
              (beBytes j).length ≤ 30 := fun j hj =>
            beBytes_length_le (by omega) (by omega)
          have G5 := HS2 (bytesToHash resultPfx) (fun j h0 hj =>
            ⟨Ne.symm (counterKey_ne_single (by decide) (by decide) (hjlen2 j hj)),
              Ne.symm (counterKey_ne_single (by decide) (by decide) (hjlen2 j hj))⟩)
          have G3 := HS2 (bytesToHash commitPfx) (fun j h0 hj =>
            ⟨Ne.symm (counterKey_ne_single (by decide) (by decide) (hjlen2 j hj)),
              Ne.symm (counterKey_ne_single (by decide) (by decide) (hjlen2 j hj))⟩)
          have G4 := HS2 (bytesToHash revealPfx) (fun j h0 hj =>
            ⟨Ne.symm (counterKey_ne_single (by decide) (by decide) (hjlen2 j hj)),
              Ne.symm (counterKey_ne_single (by decide) (by decide) (hjlen2 j hj))⟩)
          refine ⟨?_, ?_, ?_, ?_, ?_⟩
          · unfold getRandomPartyBig
            rw [G5, getState_setState_ne d53, H5]
          · unfold getRandomPartyBig
            rw [G5, getState_setState_ne d53, H5]
            omega
          · show beVal (getState sBad2 (bytesToHash commitPfx)) ≤ _
            rw [G3, getState_setState_self]
            have : beVal (bigToHash 0) = 0 := by decide
            rw [this]
            omega
          · unfold getRandomPartyBig
            rw [G4, getState_setState_ne d43, H4]
            omega
          · intro r hr
            have hrLen : (beBytes r).length ≤ 30 := beBytes_length_le (by omega) (by omega)
            have GR := HS2 (counterKey resultPfx r) (fun j h0 hj =>
              ⟨counterKey_ne_counterKey (by decide) (by decide) (by decide) hrLen
                  (hjlen2 j hj),
                counterKey_ne_counterKey (by decide) (by decide) (by decide) hrLen
                  (hjlen2 j hj)⟩)
            have HR := HS (counterKey resultPfx r) (fun j h0 hj =>
              ⟨counterKey_ne_counterKey (by decide) (by decide) (by decide) hrLen
                  (hjlen j hj),
                counterKey_ne_counterKey (by decide) (by decide) (by decide) hrLen
                  (hjlen j hj)⟩)
            have dr3 : counterKey resultPfx r ≠ bytesToHash commitPfx :=
              counterKey_ne_single (by decide) (by decide) hrLen
            unfold getResultHash
            rw [GR, getState_setState_ne dr3, HR]
        | ok p2 =>
          obtain ⟨g3, s4⟩ := p2
          simp only [state_mk]
          have HS2 : ∀ key : Bytes,
              (∀ j, 0 ≤ j → j < 0 + getRandomPartyBig s revealPfx →
                key ≠ counterKey revealPfx j ∧ key ≠ counterKey rewardPfx j) →
              getState s4 key =
                getState (setState s2 (bytesToHash commitPfx) (bigToHash 0)) key :=
            fun key hk => sweepRound_storage revealPfx rewardPfx key
              (getRandomPartyBig s revealPfx) 0 g2
              (setState s2 (bytesToHash commitPfx) (bigToHash 0)) s4 hk (Or.inr ⟨g3, hsw2⟩)
          have hjlen2 : ∀ j, j < 0 + getRandomPartyBig s revealPfx →
              (beBytes j).length ≤ 30 := fun j hj =>
            beBytes_length_le (by omega) (by omega)
          have G5 := HS2 (bytesToHash resultPfx) (fun j h0 hj =>
            ⟨Ne.symm (counterKey_ne_single (by decide) (by decide) (hjlen2 j hj)),
              Ne.symm (counterKey_ne_single (by decide) (by decide) (hjlen2 j hj))⟩)
          have G3 := HS2 (bytesToHash commitPfx) (fun j h0 hj =>
            ⟨Ne.symm (counterKey_ne_single (by decide) (by decide) (hjlen2 j hj)),
              Ne.symm (counterKey_ne_single (by decide) (by decide) (hjlen2 j hj))⟩)
          have d12 : bytesToHash resultPfx ≠ bytesToHash revealDeadlineKey :=
            single_ne_single (by decide) (by decide) (by decide)
          have d11 : bytesToHash resultPfx ≠ bytesToHash commitDeadlineKey :=
            single_ne_single (by decide) (by decide) (by decide)
          have d54 : bytesToHash resultPfx ≠ bytesToHash revealPfx :=
            single_ne_single (by decide) (by decide) (by decide)
          have d32 : bytesToHash commitPfx ≠ bytesToHash revealDeadlineKey :=
            single_ne_single (by decide) (by decide) (by decide)
          have d31 : bytesToHash commitPfx ≠ bytesToHash commitDeadlineKey :=
            single_ne_single (by decide) (by decide) (by decide)
          have d34s : bytesToHash commitPfx ≠ bytesToHash revealPfx :=
            single_ne_single (by decide) (by decide) (by decide)
          have d42 : bytesToHash revealPfx ≠ bytesToHash revealDeadlineKey :=
            single_ne_single (by decide) (by decide) (by decide)
          have d41 : bytesToHash revealPfx ≠ bytesToHash commitDeadlineKey :=
            single_ne_single (by decide) (by decide) (by decide)
          refine ⟨?_, ?_, ?_, ?_, ?_⟩
          · rw [getBig_setState_ne d12, getBig_setState_ne d11, getBig_setState_ne d54]
            unfold getRandomPartyBig
            rw [G5, getState_setState_ne d53, H5]
          · rw [getBig_setState_ne d12, getBig_setState_ne d11, getBig_setState_ne d54]
            unfold getRandomPartyBig
            rw [G5, getState_setState_ne d53, H5]
            omega
          · rw [getBig_setState_ne d32, getBig_setState_ne d31, getBig_setState_ne d34s]
            show beVal (getState s4 (bytesToHash commitPfx)) ≤ _
            rw [G3, getState_setState_self]
            have : beVal (bigToHash 0) = 0 := by decide
            rw [this]
            omega
          · rw [getBig_setState_ne d42, getBig_setState_ne d41,
              getBig_setState_self _ revealPfx 0 (by omega)]
            omega
          · intro r hr
            have hrLen : (beBytes r).length ≤ 30 := beBytes_length_le (by omega) (by omega)
            have GR := HS2 (counterKey resultPfx r) (fun j h0 hj =>
              ⟨counterKey_ne_counterKey (by decide) (by decide) (by decide) hrLen
                  (hjlen2 j hj),
                counterKey_ne_counterKey (by decide) (by decide) (by decide) hrLen
                  (hjlen2 j hj)⟩)
            have HR := HS (counterKey resultPfx r) (fun j h0 hj =>
              ⟨counterKey_ne_counterKey (by decide) (by decide) (by decide) hrLen
                  (hjlen j hj),
                counterKey_ne_counterKey (by decide) (by decide) (by decide) hrLen
                  (hjlen j hj)⟩)
            have dr3 : counterKey resultPfx r ≠ bytesToHash commitPfx :=
              counterKey_ne_single (by decide) (by decide) hrLen
            have dr2 : counterKey resultPfx r ≠ bytesToHash revealDeadlineKey :=
              counterKey_ne_single (by decide) (by decide) hrLen
            have dr1 : counterKey resultPfx r ≠ bytesToHash commitDeadlineKey :=
              counterKey_ne_single (by decide) (by decide) hrLen
            have dr4 : counterKey resultPfx r ≠ bytesToHash revealPfx :=
              counterKey_ne_single (by decide) (by decide) hrLen
            rw [getResultHash_setState_ne dr2, getResultHash_setState_ne dr1,
              getResultHash_setState_ne dr4]
            unfold getResultHash
            rw [GR, getState_setState_ne dr3, HR]

/-- The compute loop succeeds whenever the remaining gas covers the
worst-case per-iteration cost, and it never touches the word store (its
only state effects are CreateAccount and AddBalance); with rewarding off
it does not touch the state at all. -/
theorem computeLoop_ok (er : Nat) (sr : Bool) :
    ∀ (k i g : Nat) (buf : Bytes) (s : EvmState),
      k * (ComputeItemCost + ComputeRewardCost) ≤ g →
      ∃ g2 buf2 s2, computeLoop er sr k i g buf s = .ok (g2, buf2, s2) ∧
        s2.storage = s.storage ∧ (sr = false → s2 = s) := by
  intro k
  induction k with
  | zero => intro i g buf s _; exact ⟨g, buf, s, rfl, rfl, fun _ => rfl⟩
  | succ k ih =>
    intro i g buf s hg
    have hI : ComputeItemCost ≤ g := by
      have : (k + 1) * (ComputeItemCost + ComputeRewardCost) =
          k * (ComputeItemCost + ComputeRewardCost) + ComputeItemCost + ComputeRewardCost := by
        ring
      omega
    have hmul : (k + 1) * (ComputeItemCost + ComputeRewardCost) =
        k * (ComputeItemCost + ComputeRewardCost) + ComputeItemCost + ComputeRewardCost := by
      ring
    simp only [computeLoop]
    rw [deductGas_of_le hI]
    cases sr with
    | false =>
      simp only [if_false, ite_false, Bool.false_eq_true]
      obtain ⟨g2, buf2, s2, hrun, hst, hid⟩ :=
        ih (i + 1) (g - ComputeItemCost)
          (copyAt buf (getCounterHash s revealPfx i) i) s (by omega)
      exact ⟨g2, buf2, s2, hrun, hst, fun _ => hid rfl⟩
    | true =>
      simp only [if_true, ite_true]
      have hR : ComputeRewardCost ≤ g - ComputeItemCost := by omega
      rw [deductGas_of_le hR]
      obtain ⟨g2, buf2, s2, hrun, hst, hid⟩ :=
        ih (i + 1) (g - ComputeItemCost - ComputeRewardCost)
          (copyAt buf (getCounterHash s revealPfx i) i)
          (addBalance
            (if s.existsAcct (getFundRecipient s rewardPfx i) then s
             else createAccount s (getFundRecipient s rewardPfx i))
            (getFundRecipient s rewardPfx i) er) (by omega)
      refine ⟨g2, buf2, s2, hrun, ?_, fun hf => by exact absurd hf (by simp)⟩
      rw [hst]
      by_cases hex : s.existsAcct (getFundRecipient s rewardPfx i)
      · rw [if_pos hex]; rfl
      · rw [if_neg hex]; rfl

theorem step_resultFacts (keccak : Bytes → Bytes) (a : CallArgs) (s : EvmState)
    (hcc : getRandomPartyBig s commitPfx < 256 ^ 30)
    (hrc : getRandomPartyBig s revealPfx < 256 ^ 30)
    (hres : getRandomPartyBig s resultPfx < 256 ^ 30) :
    ResultFacts s (stepState keccak a s) := by
  cases hop : a.op with
  | start =>
    simp only [stepState, runOp, hop]
    exact start_resultFacts a.t a.input a.gas a.readOnly s hcc hrc hres
  | sponsor =>
    simp only [stepState, runOp, hop]
    exact sponsor_resultFacts a.t a.input a.gas a.value a.readOnly s hres
  | reward =>
    simp only [stepState, runOp, hop]
    rw [reward_state_eq]
    exact ResultFacts_refl s
  | commit =>
    simp only [stepState, runOp, hop]
    exact commit_resultFacts a.t a.caller a.input a.gas a.value a.readOnly s hcc hres
  | reveal =>
    simp only [stepState, runOp, hop]
    exact reveal_resultFacts keccak a.t a.caller a.input a.gas a.readOnly s hcc hrc hres
  | compute =>
    simp only [stepState, runOp, hop]
    cases hc : computeRandomParty keccak a.t a.input a.gas a.readOnly s with
    | none => exact ResultFacts_refl s
    | some r0 =>
      exact compute_resultFacts keccak a.t a.input a.gas a.readOnly s hcc hrc hres r0 hc
  | result =>
    simp only [stepState, runOp, hop]
    rw [result_state_eq]
    exact ResultFacts_refl s
  | next =>
    simp only [stepState, runOp, hop]
    rw [next_state_eq]
    exact ResultFacts_refl s

theorem runChain_resultFacts (keccak : Bytes → Bytes) :
    ∀ (calls : List CallArgs) (s : EvmState),
      getRandomPartyBig s commitPfx + calls.length ≤ 256 ^ 29 →
      getRandomPartyBig s revealPfx + calls.length ≤ 256 ^ 29 →
      getRandomPartyBig s resultPfx + calls.length ≤ 256 ^ 29 →
      getRandomPartyBig s resultPfx ≤ getRandomPartyBig (runChain keccak calls s) resultPfx ∧
      (∀ r, r < getRandomPartyBig s resultPfx →
        getResultHash (runChain keccak calls s) r = getResultHash s r) := by
  intro calls
  induction calls with
  | nil =>
    intro s h1 h2 h3
    exact ⟨le_rfl, fun r hr => rfl⟩
  | cons a rest ih =>
    intro s h1 h2 h3
    have hpow : (256 : Nat) ^ 29 < 256 ^ 30 := Nat.pow_lt_pow_succ (by omega)
    have hlen : (a :: rest).length = rest.length + 1 := rfl
    rw [hlen] at h1 h2 h3
    have hstep := step_resultFacts keccak a s (by omega) (by omega) (by omega)
    obtain ⟨m1, m2, m3, m4, m5⟩ := hstep
    have hrec := ih (stepState keccak a s) (by omega) (by omega) (by omega)
    refine ⟨le_trans m1 hrec.1, fun r hr => ?_⟩
    rw [runChain]
    rw [hrec.2 r (lt_of_lt_of_le hr m1)]
    exact m5 r hr

/-! ## Toolkit for duplicate-reveal rejection across the phase (claim C7) -/

/-- The revealing phase of a round, as the code tests it: both deadlines
non-zero and the block time in [commitDeadline, revealDeadline). -/
def inPhase (s : EvmState) (t : Nat) : Prop :=
  getRandomPartyBig s commitDeadlineKey ≠ 0 ∧
  getRandomPartyBig s revealDeadlineKey ≠ 0 ∧
  getRandomPartyBig s commitDeadlineKey ≤ t ∧
  t < getRandomPartyBig s revealDeadlineKey

instance (s : EvmState) (t : Nat) : Decidable (inPhase s t) := by
  unfold inPhase; infer_instance

/-- One arbitrary precompile call made while the state is in its revealing
phase. -/
def phaseStep (keccak : Bytes → Bytes) (s s1 : EvmState) : Prop :=
  ∃ a : CallArgs, inPhase s a.t ∧ s1 = stepState keccak a s

/-- The indices below cc whose commit slot still holds a live (non-zero)
commitment. -/
def liveCommits (s : EvmState) (cc : Nat) : Finset Nat :=
  (Finset.range cc).filter (fun i => beVal (getCounterHash s commitPfx i) ≠ 0)

/-- The invariant carried across the revealing phase for claim C7: the
deadlines and the commit counter are pinned, the commit slot of idx reads
zero, and the reveal counter plus the number of live commitments is
bounded (each successful reveal trades one live commitment for one reveal
counter increment, so the sum never grows). -/
def C7Inv (cd rd cc bound idx : Nat) (s : EvmState) : Prop :=
  getRandomPartyBig s commitDeadlineKey = cd ∧
  getRandomPartyBig s revealDeadlineKey = rd ∧
  getRandomPartyBig s commitPfx = cc ∧
  beVal (getCounterHash s commitPfx idx) = 0 ∧
  getRandomPartyBig s revealPfx + (liveCommits s cc).card ≤ bound

/-- Every reveal call either fails, returning the state unchanged, or its
full success preconditions held (and the call was not readOnly). -/
theorem reveal_state_cases (keccak : Bytes → Bytes) (t : Nat) (caller input : Bytes)
    (gas : Nat) (ro : Bool) (s : EvmState) :
    (∃ e g2, revealRandomParty keccak t caller input gas ro s = ⟨.error e, g2, s⟩) ∨
    (ro = false ∧ RevealGasCost ≤ gas ∧
      getRandomPartyBig s commitDeadlineKey ≠ 0 ∧
      getRandomPartyBig s revealDeadlineKey ≠ 0 ∧
      getRandomPartyBig s commitDeadlineKey ≤ t ∧
      t < getRandomPartyBig s revealDeadlineKey ∧
      input.length = 64 ∧
      beVal (input.take 32) < getRandomPartyBig s commitPfx ∧
      beVal (getCounterHash s commitPfx (beVal (input.take 32))) ≠ 0 ∧
      getCounterHash s commitPfx (beVal (input.take 32)) =
        keccak (bytesToHash (input.drop 32))) := by
  by_cases hgas : RevealGasCost ≤ gas
  case neg =>
    left
    refine ⟨.outOfGas, 0, ?_⟩
    have hd : deductGas gas RevealGasCost = none := by
      unfold deductGas; rw [if_pos (by omega)]
    simp only [revealRandomParty, hd]
  case pos =>
  by_cases h1 : getRandomPartyBig s commitDeadlineKey = 0 ∨
      getRandomPartyBig s revealDeadlineKey = 0
  case pos =>
    left
    refine ⟨.noRandomPartyStarted, gas - RevealGasCost, ?_⟩
    unfold revealRandomParty
    rw [deductGas_of_le hgas]
    simp only [h1, if_true, ite_true]
  case neg =>
  by_cases h2 : t < getRandomPartyBig s commitDeadlineKey
  case pos =>
    left
    refine ⟨.tooEarly, gas - RevealGasCost, ?_⟩
    unfold revealRandomParty
    rw [deductGas_of_le hgas]
    simp only [h1, h2, if_true, ite_true, if_false, ite_false]
  case neg =>
  by_cases h3 : getRandomPartyBig s revealDeadlineKey ≤ t
  case pos =>
    left
    refine ⟨.tooLate, gas - RevealGasCost, ?_⟩
    unfold revealRandomParty
    rw [deductGas_of_le hgas]
    simp only [h1, h2, h3, if_true, ite_true, if_false, ite_false]
  case neg =>
  by_cases h4 : input.length = 64
  case neg =>
    left
    refine ⟨.invalidInputLength input.length, gas - RevealGasCost, ?_⟩
    have h4' : input.length ≠ 64 := h4
    unfold revealRandomParty
    rw [deductGas_of_le hgas]
    simp only [h1, h2, h3, h4', if_true, ite_true, if_false, ite_false, ne_eq,
      not_false_eq_true]
  case pos =>
  have h4' : ¬ input.length ≠ 64 := by simp [h4]
  by_cases h5 : getRandomPartyBig s commitPfx ≤ beVal (input.take 32)
  case pos =>
    left
    refine ⟨.noHashWithIndex (beVal (input.take 32)), gas - RevealGasCost, ?_⟩
    unfold revealRandomParty
    rw [deductGas_of_le hgas]
    simp only [h1, h2, h3, h4', h5, if_true, ite_true, if_false, ite_false]
  case neg =>
  by_cases h6 : beVal (getCounterHash s commitPfx (beVal (input.take 32))) = 0
  case pos =>
    left
    refine ⟨.duplicateReveal, gas - RevealGasCost, ?_⟩
    unfold revealRandomParty
    rw [deductGas_of_le hgas]
    simp only [h1, h2, h3, h4', h5, h6, if_true, ite_true, if_false, ite_false]
  case neg =>
  by_cases h7 : getCounterHash s commitPfx (beVal (input.take 32)) =
      keccak (bytesToHash (input.drop 32))
  case neg =>
    left
    refine ⟨.hashMismatch (getCounterHash s commitPfx (beVal (input.take 32)))
      (keccak (bytesToHash (input.drop 32))), gas - RevealGasCost, ?_⟩
    have h7' : getCounterHash s commitPfx (beVal (input.take 32)) ≠
        keccak (bytesToHash (input.drop 32)) := h7
    unfold revealRandomParty
    rw [deductGas_of_le hgas]
    simp only [h1, h2, h3, h4', h5, h6, h7', if_true, ite_true, if_false, ite_false,
      ne_eq, not_false_eq_true]
  case pos =>
  by_cases h8 : ro = true
  case pos =>
    left
    refine ⟨.writeProtection, gas - RevealGasCost, ?_⟩
    have h7' : ¬ getCounterHash s commitPfx (beVal (input.take 32)) ≠
        keccak (bytesToHash (input.drop 32)) := not_not_intro h7
    unfold revealRandomParty
    rw [deductGas_of_le hgas]
    simp only [h1, h2, h3, h4', h5, h6, h7', h8, if_true, ite_true, if_false, ite_false]
  case neg =>
    right
    exact ⟨by simpa using h8, hgas, fun hc => h1 (Or.inl hc), fun hc => h1 (Or.inr hc),
      Nat.not_lt.mp h2, Nat.not_le.mp h3, h4, Nat.not_le.mp h5, h6, h7⟩

/-- The phase-relevant effects of a successful reveal: deadlines and the
commit counter are untouched, the reveal counter is bumped by one, the
revealed slot now reads zero, and every slot still live afterwards was
live before and is not the revealed index. -/
theorem reveal_success_phase_effects (keccak : Bytes → Bytes) (t : Nat)
    (caller input : Bytes) (gas : Nat) (s : EvmState)
    (hgas : RevealGasCost ≤ gas)
    (hcd : getRandomPartyBig s commitDeadlineKey ≠ 0)
    (hrd : getRandomPartyBig s revealDeadlineKey ≠ 0)
    (ht1 : getRandomPartyBig s commitDeadlineKey ≤ t)
    (ht2 : t < getRandomPartyBig s revealDeadlineKey)
    (hlen : input.length = 64)
    (hidx : beVal (input.take 32) < getRandomPartyBig s commitPfx)
    (hslot : beVal (getCounterHash s commitPfx (beVal (input.take 32))) ≠ 0)
    (hmatch : getCounterHash s commitPfx (beVal (input.take 32)) =
      keccak (bytesToHash (input.drop 32)))
    (hccB : getRandomPartyBig s commitPfx ≤ 256 ^ 30)
    (hrcB : getRandomPartyBig s revealPfx < 256 ^ 30) :
    getRandomPartyBig (revealRandomParty keccak t caller input gas false s).state
        commitDeadlineKey = getRandomPartyBig s commitDeadlineKey ∧
    getRandomPartyBig (revealRandomParty keccak t caller input gas false s).state
        revealDeadlineKey = getRandomPartyBig s revealDeadlineKey ∧
    getRandomPartyBig (revealRandomParty keccak t caller input gas false s).state
        commitPfx = getRandomPartyBig s commitPfx ∧
    getRandomPartyBig (revealRandomParty keccak t caller input gas false s).state
        revealPfx = getRandomPartyBig s revealPfx + 1 ∧
    beVal (getCounterHash (revealRandomParty keccak t caller input gas false s).state
        commitPfx (beVal (input.take 32))) = 0 ∧
    (∀ j, j < getRandomPartyBig s commitPfx →
      beVal (getCounterHash (revealRandomParty keccak t caller input gas false s).state
        commitPfx j) ≠ 0 →
      beVal (getCounterHash s commitPfx j) ≠ 0 ∧ j ≠ beVal (input.take 32)) := by
  rw [reveal_success_eq keccak t caller input gas s hgas hcd hrd ht1 ht2 hlen hidx hslot
    hmatch hccB hrcB]
  simp only [state_mk]
  have hidxLen : (beBytes (beVal (input.take 32))).length ≤ 30 :=
    beBytes_length_le (by omega) (by omega)
  have hrcLen : (beBytes (getRandomPartyBig s revealPfx)).length ≤ 30 :=
    beBytes_length_le (by omega) (by omega)
  have hbaseGet : ∀ k : Bytes, getState
      (addBalance
        (if s.existsAcct (getFundRecipient s commitOwnerPfx (beVal (input.take 32)))
          then s
          else createAccount s (getFundRecipient s commitOwnerPfx (beVal (input.take 32))))
        (getFundRecipient s commitOwnerPfx (beVal (input.take 32)))
        (getRandomPartyBig s commitFeeKey)) k = getState s k := by
    intro k
    by_cases hex : s.existsAcct (getFundRecipient s commitOwnerPfx (beVal (input.take 32)))
    · rw [if_pos hex]; rfl
    · rw [if_neg hex]; rfl
  have hbaseBig : ∀ k : Bytes, getRandomPartyBig
      (addBalance
        (if s.existsAcct (getFundRecipient s commitOwnerPfx (beVal (input.take 32)))
          then s
          else createAccount s (getFundRecipient s commitOwnerPfx (beVal (input.take 32))))
        (getFundRecipient s commitOwnerPfx (beVal (input.take 32)))
        (getRandomPartyBig s commitFeeKey)) k = getRandomPartyBig s k := by
    intro k
    show beVal (getState _ (bytesToHash k)) = beVal (getState s (bytesToHash k))
    rw [hbaseGet]
  have w1a : bytesToHash commitDeadlineKey ≠
      counterKey rewardPfx (getRandomPartyBig s revealPfx) :=
    Ne.symm (counterKey_ne_single (by decide) (by decide) hrcLen)
  have w1b : bytesToHash commitDeadlineKey ≠
      counterKey revealPfx (getRandomPartyBig s revealPfx) :=
    Ne.symm (counterKey_ne_single (by decide) (by decide) hrcLen)
  have w1c : bytesToHash commitDeadlineKey ≠ bytesToHash revealPfx :=
    single_ne_single (by decide) (by decide) (by decide)
  have w1d : bytesToHash commitDeadlineKey ≠
      counterKey commitOwnerPfx (beVal (input.take 32)) :=
    Ne.symm (counterKey_ne_single (by decide) (by decide) hidxLen)
  have w1e : bytesToHash commitDeadlineKey ≠
      counterKey commitPfx (beVal (input.take 32)) :=
    Ne.symm (counterKey_ne_single (by decide) (by decide) hidxLen)
  have w2a : bytesToHash revealDeadlineKey ≠
      counterKey rewardPfx (getRandomPartyBig s revealPfx) :=
    Ne.symm (counterKey_ne_single (by decide) (by decide) hrcLen)
  have w2b : bytesToHash revealDeadlineKey ≠
      counterKey revealPfx (getRandomPartyBig s revealPfx) :=
    Ne.symm (counterKey_ne_single (by decide) (by decide) hrcLen)
  have w2c : bytesToHash revealDeadlineKey ≠ bytesToHash revealPfx :=
    single_ne_single (by decide) (by decide) (by decide)
  have w2d : bytesToHash revealDeadlineKey ≠
      counterKey commitOwnerPfx (beVal (input.take 32)) :=
    Ne.symm (counterKey_ne_single (by decide) (by decide) hidxLen)
  have w2e : bytesToHash revealDeadlineKey ≠
      counterKey commitPfx (beVal (input.take 32)) :=
    Ne.symm (counterKey_ne_single (by decide) (by decide) hidxLen)
  have w3a : bytesToHash commitPfx ≠
      counterKey rewardPfx (getRandomPartyBig s revealPfx) :=
    Ne.symm (counterKey_ne_single (by decide) (by decide) hrcLen)
  have w3b : bytesToHash commitPfx ≠
      counterKey revealPfx (getRandomPartyBig s revealPfx) :=
    Ne.symm (counterKey_ne_single (by decide) (by decide) hrcLen)
  have w3c : bytesToHash commitPfx ≠ bytesToHash revealPfx :=
    single_ne_single (by decide) (by decide) (by decide)
  have w3d : bytesToHash commitPfx ≠
      counterKey commitOwnerPfx (beVal (input.take 32)) :=
    Ne.symm (counterKey_ne_single (by decide) (by decide) hidxLen)
  have w3e : bytesToHash commitPfx ≠
      counterKey commitPfx (beVal (input.take 32)) :=
    Ne.symm (counterKey_ne_single (by decide) (by decide) hidxLen)
  have w4a : bytesToHash revealPfx ≠
      counterKey rewardPfx (getRandomPartyBig s revealPfx) :=
    Ne.symm (counterKey_ne_single (by decide) (by decide) hrcLen)
  have w4b : bytesToHash revealPfx ≠
      counterKey revealPfx (getRandomPartyBig s revealPfx) :=
    Ne.symm (counterKey_ne_single (by decide) (by decide) hrcLen)
  refine ⟨?_, ?_, ?_, ?_, ?_, ?_⟩
  · rw [getBig_setState_ne w1a, getBig_setState_ne w1b, getBig_setState_ne w1c,
      getBig_setState_ne w1d, getBig_setState_ne w1e, hbaseBig]
  · rw [getBig_setState_ne w2a, getBig_setState_ne w2b, getBig_setState_ne w2c,
      getBig_setState_ne w2d, getBig_setState_ne w2e, hbaseBig]
  · rw [getBig_setState_ne w3a, getBig_setState_ne w3b, getBig_setState_ne w3c,
      getBig_setState_ne w3d, getBig_setState_ne w3e, hbaseBig]
  · rw [getBig_setState_ne w4a, getBig_setState_ne w4b]
    rw [getBig_setState_self _ revealPfx _ (by omega)]
  · have v1 : counterKey commitPfx (beVal (input.take 32)) ≠
        counterKey rewardPfx (getRandomPartyBig s revealPfx) :=
      counterKey_ne_counterKey (by decide) (by decide) (by decide) hidxLen hrcLen
    have v2 : counterKey commitPfx (beVal (input.take 32)) ≠
        counterKey revealPfx (getRandomPartyBig s revealPfx) :=
      counterKey_ne_counterKey (by decide) (by decide) (by decide) hidxLen hrcLen
    have v3 : counterKey commitPfx (beVal (input.take 32)) ≠ bytesToHash revealPfx :=
      counterKey_ne_single (by decide) (by decide) hidxLen
    have v4 : counterKey commitPfx (beVal (input.take 32)) ≠
        counterKey commitOwnerPfx (beVal (input.take 32)) :=
      counterKey_ne_counterKey (by decide) (by decide) (by decide) hidxLen hidxLen
    unfold getCounterHash
    rw [getState_setState_ne v1, getState_setState_ne v2, getState_setState_ne v3,
      getState_setState_ne v4, getState_setState_self]
    decide
  · intro j hj hlive
    have hjLen : (beBytes j).length ≤ 30 := beBytes_length_le (by omega) (by omega)
    have u1 : counterKey commitPfx j ≠
        counterKey rewardPfx (getRandomPartyBig s revealPfx) :=
      counterKey_ne_counterKey (by decide) (by decide) (by decide) hjLen hrcLen
    have u2 : counterKey commitPfx j ≠
        counterKey revealPfx (getRandomPartyBig s revealPfx) :=
      counterKey_ne_counterKey (by decide) (by decide) (by decide) hjLen hrcLen
    have u3 : counterKey commitPfx j ≠ bytesToHash revealPfx :=
      counterKey_ne_single (by decide) (by decide) hjLen
    have u4 : counterKey commitPfx j ≠ counterKey commitOwnerPfx (beVal (input.take 32)) :=
      counterKey_ne_counterKey (by decide) (by decide) (by decide) hjLen hidxLen
    unfold getCounterHash at hlive
    rw [getState_setState_ne u1, getState_setState_ne u2, getState_setState_ne u3,
      getState_setState_ne u4] at hlive
    by_cases heq : counterKey commitPfx j = counterKey commitPfx (beVal (input.take 32))
    · rw [heq, getState_setState_self] at hlive
      exact absurd (by decide) hlive
    · rw [getState_setState_ne heq, hbaseGet] at hlive
      refine ⟨hlive, fun hje => heq ?_⟩
      rw [hje]

/-- One in-phase call preserves the duplicate-reveal invariant: every
operation other than a successful reveal leaves the word store unchanged
during the revealing phase, and a successful reveal of some other index
zeroes a live slot while bumping the reveal counter. -/
theorem C7Inv_step (keccak : Bytes → Bytes) (cd rd cc bound idx : Nat) (a : CallArgs)
    (s : EvmState)
    (hcd0 : cd ≠ 0) (hrd0 : rd ≠ 0)
    (hccB : cc ≤ 256 ^ 29) (hboundB : bound ≤ 256 ^ 29) (hidxB : idx < cc)
    (hph1 : cd ≤ a.t) (hph2 : a.t < rd)
    (hinv : C7Inv cd rd cc bound idx s) :
    C7Inv cd rd cc bound idx (stepState keccak a s) := by
  obtain ⟨i1, i2, i3, i4, i5⟩ := hinv
  have hcdne : getRandomPartyBig s commitDeadlineKey ≠ 0 := by rw [i1]; exact hcd0
  have hcdle : getRandomPartyBig s commitDeadlineKey ≤ a.t := by rw [i1]; exact hph1
  have htlt : a.t < getRandomPartyBig s revealDeadlineKey := by rw [i2]; exact hph2
  cases hop : a.op with
  | start =>
    have hstep : stepState keccak a s = s := by
      simp only [stepState, runOp, hop]
      cases hd : deductGas a.gas StartGasCost with
      | none => simp only [startRandomParty, hd]
      | some g1 =>
        simp only [startRandomParty, hd]
        split_ifs <;> rfl
    rw [hstep]
    exact ⟨i1, i2, i3, i4, i5⟩
  | sponsor =>
    have hstep : stepState keccak a s = s := by
      simp only [stepState, runOp, hop]
      cases hd : deductGas a.gas SponsorGasCost with
      | none => simp only [sponsorRandomParty, hd]
      | some g1 =>
        simp only [sponsorRandomParty, hd]
        split_ifs <;> rfl
    rw [hstep]
    exact ⟨i1, i2, i3, i4, i5⟩
  | reward =>
    have hstep : stepState keccak a s = s := by
      simp only [stepState, runOp, hop]
      cases hd : deductGas a.gas RewardGasCost with
      | none => simp only [rewardRandomParty, hd]
      | some g1 =>
        simp only [rewardRandomParty, hd]
        split_ifs <;> rfl
    rw [hstep]
    exact ⟨i1, i2, i3, i4, i5⟩
  | commit =>
    have hstep : stepState keccak a s = s := by
      simp only [stepState, runOp, hop]
      cases hd : deductGas a.gas CommitGasCost with
      | none => simp only [commitRandomParty, hd]
      | some g1 =>
        simp only [commitRandomParty, hd]
        split_ifs <;> rfl
    rw [hstep]
    exact ⟨i1, i2, i3, i4, i5⟩
  | compute =>
    have hstep : stepState keccak a s = s := by
      simp only [stepState, runOp, hop]
      cases hd : deductGas a.gas ComputeGasCost with
      | none => simp only [computeRandomParty, hd]
      | some g1 =>
        simp only [computeRandomParty, hd]
        split_ifs <;> rfl
    rw [hstep]
    exact ⟨i1, i2, i3, i4, i5⟩
  | result =>
    have hstep : stepState keccak a s = s := by
      simp only [stepState, runOp, hop]
      cases hd : deductGas a.gas ResultCost with
      | none => simp only [resultRandomParty, hd]
      | some g1 =>
        simp only [resultRandomParty, hd]
        split_ifs <;> rfl
    rw [hstep]
    exact ⟨i1, i2, i3, i4, i5⟩
  | next =>
    have hstep : stepState keccak a s = s := by
      simp only [stepState, runOp, hop]
      cases hd : deductGas a.gas NextCost with
      | none => simp only [nextRandomParty, hd]
      | some g1 =>
        simp only [nextRandomParty, hd]
        split_ifs <;> rfl
    rw [hstep]
    exact ⟨i1, i2, i3, i4, i5⟩
  | reveal =>
    rcases reveal_state_cases keccak a.t a.caller a.input a.gas a.readOnly s with
      ⟨e, g2, heq⟩ | ⟨hro, hg, hcd', hrd', ht1', ht2', hlen', hidx', hslot', hmatch'⟩
    · have hstep : stepState keccak a s = s := by
        simp only [stepState, runOp, hop, heq]
      rw [hstep]
      exact ⟨i1, i2, i3, i4, i5⟩
    · have hstep : stepState keccak a s =
          (revealRandomParty keccak a.t a.caller a.input a.gas false s).state := by
        simp only [stepState, runOp, hop, hro]
      rw [hstep]
      have hccB' : getRandomPartyBig s commitPfx ≤ 256 ^ 30 := by
        rw [i3]
        exact le_trans hccB (by norm_num)
      have hrcB' : getRandomPartyBig s revealPfx < 256 ^ 30 := by
        have hle : getRandomPartyBig s revealPfx ≤ bound := by omega
        have hlt : (256 : Nat) ^ 29 < 256 ^ 30 := by norm_num
        omega
      obtain ⟨e1, e2, e3, e4, e5, e6⟩ := reveal_success_phase_effects keccak a.t a.caller
        a.input a.gas s hg hcd' hrd' ht1' ht2' hlen' hidx' hslot' hmatch' hccB' hrcB'
      have hmem : beVal (a.input.take 32) ∈ liveCommits s cc := by
        simp only [liveCommits, Finset.mem_filter, Finset.mem_range]
        exact ⟨by rw [← i3]; exact hidx', hslot'⟩
      have hsub : liveCommits (revealRandomParty keccak a.t a.caller a.input a.gas
          false s).state cc ⊆ (liveCommits s cc).erase (beVal (a.input.take 32)) := by
        intro j hj
        simp only [liveCommits, Finset.mem_filter, Finset.mem_range] at hj
        obtain ⟨hjlt, hjlive⟩ := hj
        have h6j := e6 j (by rw [i3]; exact hjlt) hjlive
        refine Finset.mem_erase.mpr ⟨h6j.2, ?_⟩
        simp only [liveCommits, Finset.mem_filter, Finset.mem_range]
        exact ⟨hjlt, h6j.1⟩
      have hcard : (liveCommits (revealRandomParty keccak a.t a.caller a.input a.gas
          false s).state cc).card ≤ (liveCommits s cc).card - 1 := by
        have hc := Finset.card_le_card hsub
        rw [Finset.card_erase_of_mem hmem] at hc
        exact hc
      have hpos : 1 ≤ (liveCommits s cc).card := Finset.card_pos.mpr ⟨_, hmem⟩
      refine ⟨by rw [e1]; exact i1, by rw [e2]; exact i2, by rw [e3]; exact i3, ?_, ?_⟩
      · by_contra h0
        exact (e6 idx (by rw [i3]; exact hidxB) h0).1 i4
      · rw [e4]
        omega

/-- The duplicate-reveal invariant survives any sequence of in-phase
calls. -/
theorem C7Inv_chain (keccak : Bytes → Bytes) (cd rd cc bound idx : Nat)
    (hcd0 : cd ≠ 0) (hrd0 : rd ≠ 0) (hccB : cc ≤ 256 ^ 29) (hboundB : bound ≤ 256 ^ 29)
    (hidxB : idx < cc) {s s1 : EvmState}
    (h : Relation.ReflTransGen (phaseStep keccak) s s1)
    (hinv : C7Inv cd rd cc bound idx s) : C7Inv cd rd cc bound idx s1 := by
  induction h with
  | refl => exact hinv
  | tail hchain hstep ih =>
    obtain ⟨a, hph, hdef⟩ := hstep
    rw [hdef]
    exact C7Inv_step keccak cd rd cc bound idx a _ hcd0 hrd0 hccB hboundB hidxB
      (by rw [← ih.1]; exact hph.2.2.1) (by rw [← ih.2.1]; exact hph.2.2.2) ih

/-! ## Claim C8 -/

/-- C8: across every sequence of operations (from any state whose three
counters leave room for the sequence without overflowing a 30-byte index,
which holds for every state reachable from genesis), the result counter —
the value next() reports — never decreases, every already-written result
slot keeps its exact 32-byte value (no operation ever overwrites an
existing result entry), and a result(r) call on the final state returns
those same bytes. -/
theorem C8_result_monotone_immutable (keccak : Bytes → Bytes) (calls : List CallArgs)
    (s : EvmState)
    (h1 : getRandomPartyBig s commitPfx + calls.length ≤ 256 ^ 29)
    (h2 : getRandomPartyBig s revealPfx + calls.length ≤ 256 ^ 29)
    (h3 : getRandomPartyBig s resultPfx + calls.length ≤ 256 ^ 29) :
    getRandomPartyBig s resultPfx ≤ getRandomPartyBig (runChain keccak calls s) resultPfx ∧
    (∀ r, r < getRandomPartyBig s resultPfx →
      getResultHash (runChain keccak calls s) r = getResultHash s r) ∧
    (∀ input : Bytes, ∀ gas : Nat, input.length = 32 → ResultCost ≤ gas →
      beVal input < getRandomPartyBig s resultPfx →
      (resultRandomParty input gas (runChain keccak calls s)).out =
        .ok (getResultHash s (beVal input))) ∧
    (∀ gas : Nat, NextCost ≤ gas →
      (nextRandomParty [] gas (runChain keccak calls s)).out =
        .ok (bigToHash (getRandomPartyBig (runChain keccak calls s) resultPfx))) := by
  obtain ⟨hmono, himm⟩ := runChain_resultFacts keccak calls s h1 h2 h3
  refine ⟨hmono, himm, ?_, ?_⟩
  · intro input gas hlen hgas hidx
    have h4 : ¬ input.length ≠ 32 := by simp [hlen]
    unfold resultRandomParty
    rw [deductGas_of_le hgas]
    simp only [h4, if_false, ite_false]
    rw [himm (beVal input) hidx]
  · intro gas hgas
    unfold nextRandomParty
    rw [deductGas_of_le hgas]
    simp only [List.length_nil]
    rfl

/-! ## Claim C5: amended theorem -/

/-- C5 (amended): each of the five write-intent operations invoked with
readOnly = true in a state satisfying its preconditions returns
WriteProtection.  start, sponsor, commit and reveal return the state
exactly unchanged (word store, balances and account set).  compute (with a
non-zero reveal counter — with a zero counter it panics, claim C2 — and
gas covering the loop) returns WriteProtection with the word store
unchanged, but when eachReward = 0 fails to hold it has already credited
eachReward to the reward recipients; only when eachReward = 0 is the state
exactly unchanged. -/
theorem C5_amended :
    (∀ t : Nat, ∀ input : Bytes, ∀ gas : Nat, ∀ s : EvmState,
        StartGasCost ≤ gas → input.length = 0 →
        getRandomPartyBig s commitDeadlineKey = 0 →
        startRandomParty t input gas true s =
          ⟨.error .writeProtection, gas - StartGasCost, s⟩) ∧
    (∀ t : Nat, ∀ input : Bytes, ∀ gas value : Nat, ∀ s : EvmState,
        SponsorGasCost ≤ gas → input.length = 0 →
        getRandomPartyBig s commitDeadlineKey ≠ 0 →
        t < getRandomPartyBig s commitDeadlineKey →
        sponsorRandomParty t input gas value true s =
          ⟨.error .writeProtection, gas - SponsorGasCost, s⟩) ∧
    (∀ t : Nat, ∀ caller input : Bytes, ∀ gas value : Nat, ∀ s : EvmState,
        CommitGasCost ≤ gas →
        getRandomPartyBig s commitDeadlineKey ≠ 0 →
        t < getRandomPartyBig s commitDeadlineKey →
        input.length = 32 → getRandomPartyBig s commitFeeKey ≤ value →
        commitRandomParty t caller input gas value true s =
          ⟨.error .writeProtection, gas - CommitGasCost, s⟩) ∧
    (∀ keccak : Bytes → Bytes, ∀ t : Nat, ∀ caller input : Bytes, ∀ gas : Nat, ∀ s : EvmState,
        RevealGasCost ≤ gas →
        getRandomPartyBig s commitDeadlineKey ≠ 0 →
        getRandomPartyBig s revealDeadlineKey ≠ 0 →
        getRandomPartyBig s commitDeadlineKey ≤ t →
        t < getRandomPartyBig s revealDeadlineKey →
        input.length = 64 →
        beVal (input.take 32) < getRandomPartyBig s commitPfx →
        beVal (getCounterHash s commitPfx (beVal (input.take 32))) ≠ 0 →
        getCounterHash s commitPfx (beVal (input.take 32)) =
          keccak (bytesToHash (input.drop 32)) →
        revealRandomParty keccak t caller input gas true s =
          ⟨.error .writeProtection, gas - RevealGasCost, s⟩) ∧
    (∀ keccak : Bytes → Bytes, ∀ t : Nat, ∀ input : Bytes, ∀ gas : Nat, ∀ s : EvmState,
        getRandomPartyBig s revealDeadlineKey ≠ 0 →
        getRandomPartyBig s revealDeadlineKey ≤ t →
        input.length = 0 →
        getRandomPartyBig s revealPfx ≠ 0 →
        ComputeGasCost +
          getRandomPartyBig s revealPfx * (ComputeItemCost + ComputeRewardCost) ≤ gas →
        ∃ g2 s2, computeRandomParty keccak t input gas true s =
            some ⟨.error .writeProtection, g2, s2⟩ ∧
          s2.storage = s.storage ∧
          (getRandomPartyBig s rewardPfx / getRandomPartyBig s revealPfx = 0 → s2 = s)) := by
  refine ⟨?_, ?_, ?_, ?_, ?_⟩
  · intro t input gas s hgas hlen hcd0
    have h1 : ¬ input.length ≠ 0 := by simp [hlen]
    unfold startRandomParty
    rw [deductGas_of_le hgas]
    simp only [h1, hcd0, if_false, ite_false, if_true, ite_true, ne_eq,
      not_true_eq_false, not_false_eq_true]
  · intro t input gas value s hgas hlen hcd ht
    have h1 : ¬ input.length ≠ 0 := by simp [hlen]
    have h2 : ¬ getRandomPartyBig s commitDeadlineKey ≤ t := Nat.not_le.mpr ht
    unfold sponsorRandomParty
    rw [deductGas_of_le hgas]
    simp only [h1, hcd, h2, if_false, ite_false, if_true, ite_true]
  · intro t caller input gas value s hgas hcd ht hlen hfee
    have h2 : ¬ getRandomPartyBig s commitDeadlineKey ≤ t := Nat.not_le.mpr ht
    have h3 : ¬ input.length ≠ 32 := by simp [hlen]
    have h4 : ¬ value < getRandomPartyBig s commitFeeKey := Nat.not_lt.mpr hfee
    unfold commitRandomParty
    rw [deductGas_of_le hgas]
    simp only [hcd, h2, h3, h4, if_false, ite_false, if_true, ite_true]
  · intro keccak t caller input gas s hgas hcd hrd ht1 ht2 hlen hidx hslot hmatch
    have h1 : ¬(getRandomPartyBig s commitDeadlineKey = 0 ∨
        getRandomPartyBig s revealDeadlineKey = 0) := by
      push_neg; exact ⟨hcd, hrd⟩
    have h2 : ¬ t < getRandomPartyBig s commitDeadlineKey := Nat.not_lt.mpr ht1
    have h3 : ¬ getRandomPartyBig s revealDeadlineKey ≤ t := Nat.not_le.mpr ht2
    have h4 : ¬ input.length ≠ 64 := by simp [hlen]
    have h5 : ¬ getRandomPartyBig s commitPfx ≤ beVal (input.take 32) := Nat.not_le.mpr hidx
    have h7 : ¬ getCounterHash s commitPfx (beVal (input.take 32)) ≠
        keccak (bytesToHash (input.drop 32)) := not_not_intro hmatch
    unfold revealRandomParty
    rw [deductGas_of_le hgas]
    simp only [h1, h2, h3, h4, h5, hslot, h7, if_false, ite_false, if_true, ite_true]
  · intro keccak t input gas s hrd ht hlen hrev hgas
    have h2 : ¬ t < getRandomPartyBig s revealDeadlineKey :=
      Nat.not_lt.mpr ht
    have h3 : ¬ input.length ≠ 0 := by simp [hlen]
    unfold computeRandomParty
    rw [deductGas_of_le (by omega)]
    simp only [hrd, h2, h3, hrev, if_false, ite_false, if_true, ite_true]
    obtain ⟨g2, buf2, s2, hrun, hst, hid⟩ :=
      computeLoop_ok (getRandomPartyBig s rewardPfx / getRandomPartyBig s revealPfx)
        (decide (0 < getRandomPartyBig s rewardPfx / getRandomPartyBig s revealPfx))
        (getRandomPartyBig s revealPfx) 0 (gas - ComputeGasCost)
        (List.replicate (32 * getRandomPartyBig s revealPfx) 0) s (by omega)
    rw [hrun]
    refine ⟨g2, s2, rfl, hst, fun hz => hid ?_⟩
    rw [hz]
    rfl

/-- C9: commit accepts the all-zero word as a commitment hash — it is
appended (the slot still reads as zero) and the counter bumped — but a
commitment whose stored slot reads zero can never be revealed: reveal
never returns ok on it, and in the revealing phase it fails precisely with
DuplicateReveal, leaving the state unchanged, so the stake is never
credited back. -/
theorem C9_zero_commitment_unrecoverable :
    (∀ t : Nat, ∀ caller : Bytes, ∀ gas value : Nat, ∀ s : EvmState,
        CommitGasCost ≤ gas →
        getRandomPartyBig s commitDeadlineKey ≠ 0 →
        t < getRandomPartyBig s commitDeadlineKey →
        getRandomPartyBig s commitFeeKey ≤ value →
        getRandomPartyBig s commitPfx < 256 ^ 30 →
        ∃ s1, commitRandomParty t caller zero32 gas value false s =
            ⟨.ok (bigToHash (getRandomPartyBig s commitPfx)), gas - CommitGasCost, s1⟩ ∧
          beVal (getCounterHash s1 commitPfx (getRandomPartyBig s commitPfx)) = 0 ∧
          getRandomPartyBig s1 commitPfx = getRandomPartyBig s commitPfx + 1) ∧
    (∀ keccak : Bytes → Bytes, ∀ t : Nat, ∀ caller input : Bytes, ∀ gas : Nat, ∀ ro : Bool,
      ∀ s : EvmState, ∀ b : Bytes,
        beVal (getCounterHash s commitPfx (beVal (input.take 32))) = 0 →
        (revealRandomParty keccak t caller input gas ro s).out ≠ .ok b) ∧
    (∀ keccak : Bytes → Bytes, ∀ t : Nat, ∀ caller input : Bytes, ∀ gas : Nat, ∀ ro : Bool,
      ∀ s : EvmState,
        RevealGasCost ≤ gas →
        getRandomPartyBig s commitDeadlineKey ≠ 0 →
        getRandomPartyBig s revealDeadlineKey ≠ 0 →
        getRandomPartyBig s commitDeadlineKey ≤ t →
        t < getRandomPartyBig s revealDeadlineKey →
        input.length = 64 →
        beVal (input.take 32) < getRandomPartyBig s commitPfx →
        beVal (getCounterHash s commitPfx (beVal (input.take 32))) = 0 →
        revealRandomParty keccak t caller input gas ro s =
          ⟨.error .duplicateReveal, gas - RevealGasCost, s⟩) := by
  refine ⟨?_, ?_, ?_⟩
  · intro t caller gas value s hgas hcd ht hfee hccB
    have hccLen : (beBytes (getRandomPartyBig s commitPfx)).length ≤ 30 :=
      beBytes_length_le (by omega) (by omega)
    have d38 : counterKey commitPfx (getRandomPartyBig s commitPfx) ≠
        counterKey commitOwnerPfx (getRandomPartyBig s commitPfx) :=
      counterKey_ne_counterKey (by decide) (by decide) (by decide) hccLen hccLen
    have d33 : bytesToHash commitPfx ≠
        counterKey commitOwnerPfx (getRandomPartyBig s commitPfx) :=
      Ne.symm (counterKey_ne_single (by decide) (by decide) hccLen)
    have d3c : bytesToHash commitPfx ≠
        counterKey commitPfx (getRandomPartyBig s commitPfx) :=
      Ne.symm (counterKey_ne_single (by decide) (by decide) hccLen)
    refine ⟨_, commit_success_eq t caller zero32 gas value s hgas hcd ht (by decide) hfee,
      ?_, ?_⟩
    · unfold getCounterHash setFundRecipient
      rw [getState_setState_ne d38, getState_setState_self]
      decide
    · show beVal (getState _ (bytesToHash commitPfx)) = _
      unfold setFundRecipient setRandomPartyBig
      rw [getState_setState_ne d33, getState_setState_ne d3c, getState_setState_self]
      exact beVal_bigToHash (by omega)
  · intro keccak t caller input gas ro s b hslot0 hok
    unfold revealRandomParty at hok
    cases hd : deductGas gas RevealGasCost with
    | none => rw [hd] at hok; simp at hok
    | some g1 =>
      rw [hd] at hok
      simp only [] at hok
      split_ifs at hok
  · intro keccak t caller input gas ro s hgas hcd hrd ht1 ht2 hlen hidx hslot0
    exact reveal_dup_eq keccak t caller input gas ro s hgas hcd hrd ht1 ht2 hlen hidx hslot0

/-! ## Claim C10 -/

/-- C10: commit records only the caller address, never the transferred
amount — two commits whose values both meet the fee produce identical
results and states, so a surplus above commitStake leaves no trace in
state and no operation can ever return it — and the later reveal credits
back exactly the commitFee slot value. -/
theorem C10_surplus_never_returned :
    (∀ t : Nat, ∀ caller input : Bytes, ∀ gas v1 v2 : Nat, ∀ s : EvmState,
        getRandomPartyBig s commitFeeKey ≤ v1 →
        getRandomPartyBig s commitFeeKey ≤ v2 →
        commitRandomParty t caller input gas v1 false s =
          commitRandomParty t caller input gas v2 false s) ∧
    (∀ keccak : Bytes → Bytes, ∀ t : Nat, ∀ caller input : Bytes, ∀ gas : Nat, ∀ s : EvmState,
        RevealGasCost ≤ gas →
        getRandomPartyBig s commitDeadlineKey ≠ 0 →
        getRandomPartyBig s revealDeadlineKey ≠ 0 →
        getRandomPartyBig s commitDeadlineKey ≤ t →
        t < getRandomPartyBig s revealDeadlineKey →
        input.length = 64 →
        beVal (input.take 32) < getRandomPartyBig s commitPfx →
        beVal (getCounterHash s commitPfx (beVal (input.take 32))) ≠ 0 →
        getCounterHash s commitPfx (beVal (input.take 32)) =
          keccak (bytesToHash (input.drop 32)) →
        getRandomPartyBig s commitPfx ≤ 256 ^ 30 →
        getRandomPartyBig s revealPfx < 256 ^ 30 →
        ∃ s1, revealRandomParty keccak t caller input gas false s =
            ⟨.ok [], gas - RevealGasCost, s1⟩ ∧
          s1.balances = (fun a =>
            if a = getFundRecipient s commitOwnerPfx (beVal (input.take 32))
            then s.balances a + getRandomPartyBig s commitFeeKey
            else s.balances a)) := by
  constructor
  · intro t caller input gas v1 v2 s hv1 hv2
    unfold commitRandomParty
    cases hd : deductGas gas CommitGasCost with
    | none => rfl
    | some g1 =>
      simp only [Nat.not_lt.mpr hv1, Nat.not_lt.mpr hv2, if_false, ite_false]
  · intro keccak t caller input gas s hgas hcd hrd ht1 ht2 hlen hidx hslot hmatch hccB hrcB
    refine ⟨_, reveal_success_eq keccak t caller input gas s hgas hcd hrd ht1 ht2 hlen hidx
      hslot hmatch hccB hrcB, ?_⟩
    simp only [setState_balances]
    funext a
    by_cases hex : s.existsAcct (getFundRecipient s commitOwnerPfx (beVal (input.take 32)))
    · rw [if_pos hex]
      simp only [addBalance]
    · rw [if_neg hex]
      simp only [addBalance, createAccount]

/-! ## Concrete scenario states -/

/-- A 32-byte word standing in for a commitment hash. -/
def hashH : Bytes := List.replicate 31 0 ++ [7]

/-- A concrete stand-in hash function that maps everything to hashH. -/
def kkH : Bytes → Bytes := fun _ => hashH

/-- ABI input of reveal(0, 0x00..03). -/
def revealInput : Bytes := List.replicate 32 0 ++ (List.replicate 31 0 ++ [3])

/-- The genesis state: every storage slot reads the all-zero word, every
balance is zero, no account exists. -/
def s0 : EvmState := ⟨fun _ => zero32, fun _ => 0, fun _ => false⟩

/-- A 20-byte test address. -/
def addrA : Bytes := List.replicate 19 0 ++ [0xAA]

/-- The 32-byte word whose value is 1. -/
def wordOne : Bytes := List.replicate 31 0 ++ [1]

/-- The 32-byte word whose value is 2. -/
def wordTwo : Bytes := List.replicate 31 0 ++ [2]

/-- A ready-to-aggregate state: reveal deadline 5 (already passed at the
block times used below), two revealed preimages wordOne and wordTwo, empty
reward pool. -/
def sTwoReveals : EvmState :=
  setState
    (setState
      (setRandomPartyBig (setRandomPartyBig s0 revealDeadlineKey 5) revealPfx 2)
      (counterKey revealPfx 0) wordOne)
    (counterKey revealPfx 1) wordTwo

/-- The 64-byte buffer computeRandomParty actually hashes on sTwoReveals:
the source copies reveal entry i to byte offset i (not 32·i), so wordTwo
lands at offset 1 and overwrites all but the first byte of wordOne, and
bytes 33..63 stay zero. -/
def overlappedBuffer : Bytes := 0 :: wordTwo ++ List.replicate 31 0

/-- A ready-to-aggregate state with a zero reveal counter: reveal deadline
5 and nothing else set. -/
def sNoReveals : EvmState := setRandomPartyBig s0 revealDeadlineKey 5

/-- A revealing-phase state: commit deadline 3, reveal deadline 6, one
commitment hashH owned by addrA, commit fee 1000. -/
def sRevealing : EvmState :=
  setRandomPartyBig
    (setFundRecipient
      (setState
        (setRandomPartyBig
          (setRandomPartyBig (setRandomPartyBig s0 commitDeadlineKey 3)
            revealDeadlineKey 6)
          commitPfx 1)
        (counterKey commitPfx 0) hashH)
      commitOwnerPfx 0 addrA)
    commitFeeKey 1000

/-- A committing-phase state: commit deadline 3, commit fee 1000. -/
def sCommitting : EvmState :=
  setRandomPartyBig (setRandomPartyBig s0 commitDeadlineKey 3) commitFeeKey 1000

/-- A revealing-phase state whose only commitment slot reads as zero:
commit deadline 3, reveal deadline 6, commit counter 1, commit[0] unset. -/
def sDeadSlot : EvmState :=
  setRandomPartyBig
    (setRandomPartyBig (setRandomPartyBig s0 commitDeadlineKey 3) revealDeadlineKey 6)
    commitPfx 1

/-- A state with one completed round: result counter 1 and result[0] set
to wordOne. -/
def sResOne : EvmState :=
  setState (setRandomPartyBig s0 resultPfx 1) (counterKey resultPfx 0) wordOne

/-- A ready-to-aggregate state: reveal deadline 5, one revealed preimage
wordOne whose reward recipient is addrA, and a sponsor pool of 10 wei. -/
def sOneRevealReward : EvmState :=
  setFundRecipient
    (setState
      (setRandomPartyBig
        (setRandomPartyBig (setRandomPartyBig s0 revealDeadlineKey 5) revealPfx 1)
        rewardPfx 10)
      (counterKey revealPfx 0) wordOne)
    rewardPfx 0 addrA

/-! ## Claim C4 -/

/-- The indexed-slot key exactly as the claim words it: the one-byte
prefix, the delimiter and the minimal big-endian index placed as the
LEADING bytes of the 32-byte key, zero-padded on the right. -/
def claimedIndexedKey (pfx : Bytes) (v : Nat) : Bytes :=
  (pfx ++ delim :: beBytes v) ++
    List.replicate (32 - (pfx ++ delim :: beBytes v).length) 0

/-- C4 is falsified at the commit table with index 0: the key the code
computes (common.BytesToHash left-pads, so the prefix/delimiter bytes are
the trailing bytes of the key) is not the right-zero-padded key the claim
describes. -/
theorem C4_counterexample : counterKey commitPfx 0 ≠ claimedIndexedKey commitPfx 0 := by
  decide

/-- C4 (amended): for every table byte p and every index v < 256^30, the
32-byte storage key of entry v of the table is the byte string
p, '/', minimal-big-endian(v) placed as the TRAILING (low-order) bytes of
the key, with zero padding on the LEFT. -/
theorem C4_amended (p v : Nat) (hv : v < 256 ^ 30) :
    counterKey [p] v =
      List.replicate (30 - (beBytes v).length) 0 ++ p :: delim :: beBytes v :=
  counterKey_eq_pad (beBytes_length_le (by omega) hv)

/-- Witness for C4_amended at the commit table byte and index 5. -/
theorem C4_amended_witness :
    counterKey [3] 5 =
      List.replicate (30 - (beBytes 5).length) 0 ++ 3 :: delim :: beBytes 5 :=
  C4_amended 3 5 (by decide)

/-! ## Claim C1 -/

/-- C1 is violated by the code: on a round with the two revealed preimages
wordOne and wordTwo, compute succeeds and stores keccak of
overlappedBuffer — a buffer in which the second preimage occupies bytes
[1, 33) instead of [32, 64) — and that buffer is not the concatenation
wordOne ++ wordTwo required by the claim.  Stated for every hash function,
hence in particular for the real keccak-256. -/
theorem C1_compute_hashes_overlapped_buffer :
    (∀ keccak : Bytes → Bytes, ∃ g s1,
        computeRandomParty keccak 10 [] 1000000 false sTwoReveals =
          some ⟨.ok [], g, s1⟩ ∧
        getResultHash s1 0 = keccak overlappedBuffer) ∧
    overlappedBuffer ≠ wordOne ++ wordTwo := by
  refine ⟨fun keccak => ⟨898000, _, rfl, rfl⟩, by decide⟩

/-- Witness for C1 at a concrete hash function. -/
theorem C1_witness :
    ∃ g s1,
      computeRandomParty (fun _ => zero32) 10 [] 1000000 false sTwoReveals =
        some ⟨.ok [], g, s1⟩ ∧
      getResultHash s1 0 = (fun _ => zero32) overlappedBuffer :=
  C1_compute_hashes_overlapped_buffer.1 (fun _ => zero32)

/-! ## Claim C2 -/

/-- C2 is violated by the code: in the ready-to-aggregate state with a
zero reveal counter, compute does not complete — the source divides the
reward pool by the reveal counter (big.Int.Div) before any zero test, and
big.Int.Div panics on a zero divisor (modelled as the none outcome). -/
theorem C2_compute_zero_reveals_panics (keccak : Bytes → Bytes) :
    computeRandomParty keccak 10 [] 1000000 false sNoReveals = none := rfl

/-- Witness for C2 at a concrete hash function. -/
theorem C2_witness :
    computeRandomParty (fun _ => zero32) 10 [] 1000000 false sNoReveals = none :=
  C2_compute_zero_reveals_panics (fun _ => zero32)

/-! ## Claim C3 -/

/-- C3 is violated by the code on its reward clause: after a successful
compute on a round with one reveal and a 10-wei reward pool, both
deadlines are zeroed and resultCount is incremented, but the reward slot
still holds 10 — computeRandomParty never writes reward = 0. -/
theorem C3_reward_slot_not_zeroed (keccak : Bytes → Bytes) :
    ∃ g s1,
      computeRandomParty keccak 20 [] 1000000 false sOneRevealReward =
        some ⟨.ok [], g, s1⟩ ∧
      getRandomPartyBig s1 rewardPfx = 10 ∧
      getRandomPartyBig s1 commitDeadlineKey = 0 ∧
      getRandomPartyBig s1 revealDeadlineKey = 0 ∧
      getRandomPartyBig sOneRevealReward resultPfx = 0 ∧
      getRandomPartyBig s1 resultPfx = 1 := by
  exact ⟨898000, _, rfl, rfl, rfl, rfl, rfl, rfl⟩

/-- Witness for C3 at a concrete hash function. -/
theorem C3_witness :
    ∃ g s1,
      computeRandomParty (fun _ => zero32) 20 [] 1000000 false sOneRevealReward =
        some ⟨.ok [], g, s1⟩ ∧
      getRandomPartyBig s1 rewardPfx = 10 ∧
      getRandomPartyBig s1 commitDeadlineKey = 0 ∧
      getRandomPartyBig s1 revealDeadlineKey = 0 ∧
      getRandomPartyBig sOneRevealReward resultPfx = 0 ∧
      getRandomPartyBig s1 resultPfx = 1 :=
  C3_reward_slot_not_zeroed (fun _ => zero32)

/-! ## Claim C5: counterexample -/

/-- C5 is falsified by compute: called with readOnly = true on a
ready-to-aggregate state with one reveal and a positive reward pool, it
returns WriteProtection but has already credited eachReward (10 wei here)
to the reward recipient — the per-recipient AddBalance in the source runs
before the readOnly check. -/
theorem C5_counterexample :
    ∃ g s1,
      computeRandomParty (fun _ => zero32) 20 [] 1000000 true sOneRevealReward =
        some ⟨.error .writeProtection, g, s1⟩ ∧
      s1.balances addrA = 10 ∧
      sOneRevealReward.balances addrA = 0 := by
  exact ⟨898000, _, rfl, rfl, rfl⟩

/-! ## Witnesses at concrete inputs -/

/-- Witness for C6 on the concrete revealing-phase state sRevealing. -/
theorem C6_witness :
    ∃ s1,
      revealRandomParty kkH 4 addrA revealInput 100000 false sRevealing =
        ⟨.ok [], 100000 - RevealGasCost, s1⟩ ∧
      s1.balances = (fun a =>
        if a = getFundRecipient sRevealing commitOwnerPfx (beVal (revealInput.take 32))
        then sRevealing.balances a + getRandomPartyBig sRevealing commitFeeKey
        else sRevealing.balances a) ∧
      s1.existsAcct (getFundRecipient sRevealing commitOwnerPfx (beVal (revealInput.take 32))) =
        true ∧
      getCounterHash s1 commitPfx (beVal (revealInput.take 32)) = zero32 ∧
      getState s1 (counterKey commitOwnerPfx (beVal (revealInput.take 32))) = zero32 ∧
      getCounterHash s1 revealPfx (getRandomPartyBig sRevealing revealPfx) =
        bytesToHash (revealInput.drop 32) ∧
      getFundRecipient s1 rewardPfx (getRandomPartyBig sRevealing revealPfx) =
        getFundRecipient sRevealing commitOwnerPfx (beVal (revealInput.take 32)) ∧
      getRandomPartyBig s1 revealPfx = getRandomPartyBig sRevealing revealPfx + 1 :=
  C6_reveal_success_effects kkH 4 addrA revealInput 100000 sRevealing (by decide) (by decide)
    (by decide) (by decide) (by decide) (by decide) (by decide) (by decide) (by decide)
    (by decide) (by decide) (by decide)

/-- Witness for C9: the commit of the zero hash in sCommitting, the
impossibility of an ok reveal on the genesis state s0 (all slots zero),
and the DuplicateReveal rejection on sDeadSlot. -/
theorem C9_witness :
    (∃ s1, commitRandomParty 1 addrA zero32 100000 1000 false sCommitting =
        ⟨.ok (bigToHash (getRandomPartyBig sCommitting commitPfx)),
          100000 - CommitGasCost, s1⟩ ∧
      beVal (getCounterHash s1 commitPfx (getRandomPartyBig sCommitting commitPfx)) = 0 ∧
      getRandomPartyBig s1 commitPfx = getRandomPartyBig sCommitting commitPfx + 1) ∧
    ((revealRandomParty kkH 4 addrA revealInput 100000 false s0).out ≠ .ok []) ∧
    (revealRandomParty kkH 4 addrA revealInput 100000 false sDeadSlot =
      ⟨.error .duplicateReveal, 100000 - RevealGasCost, sDeadSlot⟩) :=
  ⟨C9_zero_commitment_unrecoverable.1 1 addrA 100000 1000 sCommitting (by decide) (by decide)
      (by decide) (by decide) (by decide),
    C9_zero_commitment_unrecoverable.2.1 kkH 4 addrA revealInput 100000 false s0 [] (by decide),
    C9_zero_commitment_unrecoverable.2.2 kkH 4 addrA revealInput 100000 false sDeadSlot
      (by decide) (by decide) (by decide) (by decide) (by decide) (by decide) (by decide)
      (by decide)⟩

/-- Witness for C5_amended: all five operations at concrete states — the
readOnly compute runs on sTwoReveals, whose reward pool is empty, so its
state comes back exactly unchanged. -/
theorem C5_amended_witness :
    (startRandomParty 1 [] 100000 true s0 =
      ⟨.error .writeProtection, 100000 - StartGasCost, s0⟩) ∧
    (sponsorRandomParty 1 [] 100000 77 true sCommitting =
      ⟨.error .writeProtection, 100000 - SponsorGasCost, sCommitting⟩) ∧
    (commitRandomParty 1 addrA hashH 100000 1000 true sCommitting =
      ⟨.error .writeProtection, 100000 - CommitGasCost, sCommitting⟩) ∧
    (revealRandomParty kkH 4 addrA revealInput 100000 true sRevealing =
      ⟨.error .writeProtection, 100000 - RevealGasCost, sRevealing⟩) ∧
    (∃ g2 s2, computeRandomParty kkH 10 [] 1000000 true sTwoReveals =
        some ⟨.error .writeProtection, g2, s2⟩ ∧
      s2.storage = sTwoReveals.storage ∧ s2 = sTwoReveals) := by
  refine ⟨C5_amended.1 1 [] 100000 s0 (by decide) (by decide) (by decide),
    C5_amended.2.1 1 [] 100000 77 sCommitting (by decide) (by decide) (by decide) (by decide),
    C5_amended.2.2.1 1 addrA hashH 100000 1000 sCommitting (by decide) (by decide) (by decide)
      (by decide) (by decide),
    C5_amended.2.2.2.1 kkH 4 addrA revealInput 100000 sRevealing (by decide) (by decide)
      (by decide) (by decide) (by decide) (by decide) (by decide) (by decide) (by decide),
    ?_⟩
  obtain ⟨g2, s2, h1, h2, h3⟩ :=
    C5_amended.2.2.2.2 kkH 10 [] 1000000 sTwoReveals (by decide) (by decide) (by decide)
      (by decide) (by decide)
  exact ⟨g2, s2, h1, h2, h3 (by decide)⟩

/-- Witness for C8 on a one-call chain (a start call) from a state with
one completed round. -/
theorem C8_witness :
    (getRandomPartyBig sResOne resultPfx ≤
      getRandomPartyBig
        (runChain kkH [⟨.start, 1, addrA, [], 100000, 0, false⟩] sResOne) resultPfx) ∧
    (getResultHash (runChain kkH [⟨.start, 1, addrA, [], 100000, 0, false⟩] sResOne) 0 =
      getResultHash sResOne 0) ∧
    ((resultRandomParty zero32 100000
        (runChain kkH [⟨.start, 1, addrA, [], 100000, 0, false⟩] sResOne)).out =
      .ok (getResultHash sResOne (beVal zero32))) :=
  have h := C8_result_monotone_immutable kkH [⟨.start, 1, addrA, [], 100000, 0, false⟩]
    sResOne (by decide) (by decide) (by decide)
  ⟨h.1, h.2.1 0 (by decide), h.2.2.1 zero32 100000 (by decide) (by decide) (by decide)⟩

/-- Witness for C10: commit with value 1000 and with value 1500 agree on
sCommitting, and the reveal on sRevealing credits back exactly the fee. -/
theorem C10_witness :
    (commitRandomParty 1 addrA hashH 100000 1000 false sCommitting =
      commitRandomParty 1 addrA hashH 100000 1500 false sCommitting) ∧
    (∃ s1, revealRandomParty kkH 4 addrA revealInput 100000 false sRevealing =
        ⟨.ok [], 100000 - RevealGasCost, s1⟩ ∧
      s1.balances = (fun a =>
        if a = getFundRecipient sRevealing commitOwnerPfx (beVal (revealInput.take 32))
        then sRevealing.balances a + getRandomPartyBig sRevealing commitFeeKey
        else sRevealing.balances a)) :=
  ⟨C10_surplus_never_returned.1 1 addrA hashH 100000 1000 1500 sCommitting (by decide)
      (by decide),
    C10_surplus_never_returned.2 kkH 4 addrA revealInput 100000 sRevealing (by decide)
      (by decide) (by decide) (by decide) (by decide) (by decide) (by decide) (by decide)
      (by decide) (by decide) (by decide)⟩

/-- Claim C7: once an index idx has been successfully revealed in the
current round, any further reveal of idx during the revealing phase —
after any sequence of in-phase calls, with any caller and any preimage —
fails with DuplicateReveal, refunds all gas but the reveal cost, and
changes no state.  The counter bounds on the starting state hold in any
reachable state (counters start at zero and grow by one per call). -/
theorem C7_no_second_reveal (keccak : Bytes → Bytes) (t0 : Nat) (caller0 input0 : Bytes)
    (gas0 g0 : Nat) (ret0 : Bytes) (s0' s1 sn : EvmState)
    (hccB : getRandomPartyBig s0' commitPfx ≤ 256 ^ 29)
    (hsum : getRandomPartyBig s0' revealPfx + getRandomPartyBig s0' commitPfx < 256 ^ 29)
    (hrun : revealRandomParty keccak t0 caller0 input0 gas0 false s0' = ⟨.ok ret0, g0, s1⟩)
    (hchain : Relation.ReflTransGen (phaseStep keccak) s1 sn)
    (t2 : Nat) (caller2 input2 : Bytes) (gas2 : Nat) (ro2 : Bool)
    (hgas2 : RevealGasCost ≤ gas2)
    (hlen2 : input2.length = 64)
    (hsame : beVal (input2.take 32) = beVal (input0.take 32))
    (hph : inPhase sn t2) :
    revealRandomParty keccak t2 caller2 input2 gas2 ro2 sn =
      ⟨.error .duplicateReveal, gas2 - RevealGasCost, sn⟩ := by
  rcases reveal_state_cases keccak t0 caller0 input0 gas0 false s0' with
    ⟨e, g2, heq⟩ | ⟨_, hg, hcd0, hrd0, ht1, ht2, hlen0, hidx0, hslot0, hmatch0⟩
  · rw [heq] at hrun
    exact absurd (congrArg RPResult.out hrun) (by simp)
  · have hccB' : getRandomPartyBig s0' commitPfx ≤ 256 ^ 30 :=
      le_trans hccB (by norm_num)
    have hrcB' : getRandomPartyBig s0' revealPfx < 256 ^ 30 := by
      have hlt : (256 : Nat) ^ 29 < 256 ^ 30 := by norm_num
      omega
    have hs1 : s1 = (revealRandomParty keccak t0 caller0 input0 gas0 false s0').state := by
      rw [hrun]
    obtain ⟨e1, e2, e3, e4, e5, e6⟩ := reveal_success_phase_effects keccak t0 caller0
      input0 gas0 s0' hg hcd0 hrd0 ht1 ht2 hlen0 hidx0 hslot0 hmatch0 hccB' hrcB'
    have hmem : beVal (input0.take 32) ∈ liveCommits s0' (getRandomPartyBig s0' commitPfx) := by
      simp only [liveCommits, Finset.mem_filter, Finset.mem_range]
      exact ⟨hidx0, hslot0⟩
    have hsub : liveCommits (revealRandomParty keccak t0 caller0 input0 gas0
        false s0').state (getRandomPartyBig s0' commitPfx) ⊆
        (liveCommits s0' (getRandomPartyBig s0' commitPfx)).erase (beVal (input0.take 32)) := by
      intro j hj
      simp only [liveCommits, Finset.mem_filter, Finset.mem_range] at hj
      obtain ⟨hjlt, hjlive⟩ := hj
      have h6j := e6 j hjlt hjlive
      refine Finset.mem_erase.mpr ⟨h6j.2, ?_⟩
      simp only [liveCommits, Finset.mem_filter, Finset.mem_range]
      exact ⟨hjlt, h6j.1⟩
    have hcard : (liveCommits (revealRandomParty keccak t0 caller0 input0 gas0
        false s0').state (getRandomPartyBig s0' commitPfx)).card ≤
        (liveCommits s0' (getRandomPartyBig s0' commitPfx)).card - 1 := by
      have hc := Finset.card_le_card hsub
      rw [Finset.card_erase_of_mem hmem] at hc
      exact hc
    have hpos : 1 ≤ (liveCommits s0' (getRandomPartyBig s0' commitPfx)).card :=
      Finset.card_pos.mpr ⟨_, hmem⟩
    have hZle : (liveCommits s0' (getRandomPartyBig s0' commitPfx)).card ≤
        getRandomPartyBig s0' commitPfx := by
      have hcle := Finset.card_filter_le (Finset.range (getRandomPartyBig s0' commitPfx))
        (fun i => beVal (getCounterHash s0' commitPfx i) ≠ 0)
      simpa [liveCommits] using hcle
    have hinv1 : C7Inv (getRandomPartyBig s0' commitDeadlineKey)
        (getRandomPartyBig s0' revealDeadlineKey) (getRandomPartyBig s0' commitPfx)
        (getRandomPartyBig s0' revealPfx + getRandomPartyBig s0' commitPfx)
        (beVal (input0.take 32)) s1 := by
      rw [hs1]
      refine ⟨e1, e2, e3, e5, ?_⟩
      rw [e4]
      omega
    have hinvn := C7Inv_chain keccak (getRandomPartyBig s0' commitDeadlineKey)
      (getRandomPartyBig s0' revealDeadlineKey) (getRandomPartyBig s0' commitPfx)
      (getRandomPartyBig s0' revealPfx + getRandomPartyBig s0' commitPfx)
      (beVal (input0.take 32)) hcd0 hrd0 hccB (by omega) hidx0 hchain hinv1
    obtain ⟨n1, n2, n3, n4, n5⟩ := hinvn
    refine reveal_dup_eq keccak t2 caller2 input2 gas2 ro2 sn hgas2 hph.1 hph.2.1
      hph.2.2.1 hph.2.2.2 hlen2 ?_ ?_
    · rw [hsame, n3]
      exact hidx0
    · rw [hsame]
      exact n4

/-- Witness for C7: the duplicate reveal on the concrete revealing-phase
state, with the empty sequence of in-phase calls between the two
reveals. -/
theorem C7_witness :
    revealRandomParty kkH 4 addrA revealInput 100000 false
        (revealRandomParty kkH 4 addrA revealInput 100000 false sRevealing).state =
      ⟨.error .duplicateReveal, 100000 - RevealGasCost,
        (revealRandomParty kkH 4 addrA revealInput 100000 false sRevealing).state⟩ :=
  C7_no_second_reveal kkH 4 addrA revealInput 100000 (100000 - RevealGasCost) []
    sRevealing
    (revealRandomParty kkH 4 addrA revealInput 100000 false sRevealing).state
    (revealRandomParty kkH 4 addrA revealInput 100000 false sRevealing).state
    (by decide) (by decide) rfl Relation.ReflTransGen.refl
    4 addrA revealInput 100000 false (by decide) (by decide) rfl (by decide)

end RandomParty
